import Mathlib

/-!
Verification of the CardtoPDF plugin (`src/plugin.ts`) against its
natural-language specification.

The TypeScript source is shallowly embedded: JavaScript strings become
`List Char`, the `Map` of emitted assets becomes an association list,
regular-expression search/replace is embedded as explicit scanning
functions with the same (leftmost, greedy, non-overlapping) semantics as
the concrete patterns used by the source, and the effectful collaborators
(the HTML plugin, Puppeteer, the file system, the clock) become explicit
environment records whose outcomes drive the control flow of `convert`.
-/

set_option maxRecDepth 8000

namespace CardToPDF

/-- JavaScript strings are modelled as their character sequences. -/
abbrev Str := List Char

/-- Shorthand: the character sequence of a Lean string literal. -/
def str (s : String) : Str := s.data

/-- Lower-casing of a character sequence (used for the case-insensitive
`i` flag of the source's regular expressions). -/
def lower (l : Str) : Str := l.map Char.toLower

-- ===========================================================================
-- JS `String.prototype.indexOf`
-- ===========================================================================

/-- Auxiliary scan for `indexOf`: the least position `≥ i` (counting from the
start of the original string) at which `pat` is a prefix of the rest. -/
def firstIdxAux (pat : Str) : Str → Nat → Option Nat
  | [], i => if pat.isPrefixOf ([] : Str) then some i else none
  | l@(_ :: rest), i =>
    if pat.isPrefixOf l then some i else firstIdxAux pat rest (i + 1)

/-- JS `html.indexOf(pat)`: position of the leftmost occurrence. -/
def firstIdx (pat l : Str) : Option Nat := firstIdxAux pat l 0

/-- JS `html.indexOf(pat, k)` for `k ≥ 0`: leftmost occurrence at or after
position `k`. -/
def idxFrom (pat l : Str) (k : Nat) : Option Nat :=
  (firstIdx pat (l.drop k)).map (· + k)

-- ===========================================================================
-- The `/<body[^>]*>/i` match used by `_insertCover` / `_insertTOC` fallback
-- ===========================================================================

/-- Length of the match of `/<body[^>]*>/i` anchored at the head of `l`
(`[^>]*` is greedy and cannot cross `>`, so the match extends to the first
`>` after `<body`), or `none` when the pattern does not match here. -/
def bodyOpenLenAt (l : Str) : Option Nat :=
  if lower (l.take 5) = str "<body" then
    ((l.drop 5).findIdx? (· = '>')).map (fun j => 5 + j + 1)
  else none

/-- Leftmost match of `/<body[^>]*>/i`: start position and length. -/
def findBodyOpenAux : Str → Nat → Option (Nat × Nat)
  | [], _ => none
  | l@(_ :: rest), i =>
    match bodyOpenLenAt l with
    | some n => some (i, n)
    | none => findBodyOpenAux rest (i + 1)

/-- Leftmost match of `/<body[^>]*>/i` in `l`. -/
def findBodyOpen (l : Str) : Option (Nat × Nat) := findBodyOpenAux l 0

/-- `html.replace(/<body[^>]*>/i, (match) => match + "\n" + ins)`:
the source's insertion of a block right after the matched opening body
tag; the string is returned unchanged when the pattern does not match. -/
def replaceAfterBodyOpen (html ins : Str) : Str :=
  match findBodyOpen html with
  | some (i, n) => html.take (i + n) ++ '\n' :: ins ++ html.drop (i + n)
  | none => html

/-- `_insertCover` (plugin.ts:753): insert the cover after the opening body
tag. -/
def insertCover (html coverHtml : Str) : Str :=
  replaceAfterBodyOpen html coverHtml

/-- The class-name marker of the generated cover block. -/
def coverMarker : Str := str "chips-pdf-cover"

/-- The closing tag searched for by `_insertTOC`. -/
def closeDivTag : Str := str "</div>"

/-- `_insertTOC` (plugin.ts:762): find `"chips-pdf-cover"`, then the first
`"</div>"` from that position (JS `indexOf` clamps the `-1` produced by a
missing marker to `0`), and insert the TOC right after that `"</div>"`;
only when no such `"</div>"` exists fall back to inserting after the
opening body tag. -/
def insertTOC (html tocHtml : Str) : Str :=
  let coverStart := (firstIdx coverMarker html).getD 0
  match idxFrom closeDivTag html coverStart with
  | some i => html.take (i + 6) ++ '\n' :: tocHtml ++ html.drop (i + 6)
  | none => replaceAfterBodyOpen html tocHtml

-- ===========================================================================
-- Specification-side predicates for body tags and substring occurrence
-- ===========================================================================

/-- Spec-side notion: an occurrence of the source's `/<body[^>]*>/i`
pattern at position `i` (case-insensitive `<body` followed eventually by a
closing `>`). -/
def bodyPatternAt (l : Str) (i : Nat) : Prop :=
  lower ((l.drop i).take 5) = str "<body" ∧ '>' ∈ l.drop (i + 5)

instance (l : Str) (i : Nat) : Decidable (bodyPatternAt l i) := by
  unfold bodyPatternAt; infer_instance

/-- The `/<body[^>]*>/i` pattern occurs somewhere in `l`. -/
def BodyPatternOccurs (l : Str) : Prop := ∃ i < l.length, bodyPatternAt l i

instance (l : Str) : Decidable (BodyPatternOccurs l) := by
  unfold BodyPatternOccurs; infer_instance

/-- Spec-side notion of a genuine HTML opening body tag at position `i`:
`<body` (in any case) followed by a delimiter — whitespace, `/` or `>` —
so that the tag name really is `body`. -/
def htmlBodyOpenTagAt (l : Str) (i : Nat) : Prop :=
  lower ((l.drop i).take 5) = str "<body" ∧
    (l.drop (i + 5)).head? ∈ [some ' ', some '\t', some '\n', some '\r', some '/', some '>']

instance (l : Str) (i : Nat) : Decidable (htmlBodyOpenTagAt l i) := by
  unfold htmlBodyOpenTagAt; infer_instance

/-- The document contains an HTML opening body tag. -/
def HasHtmlBodyOpenTag (l : Str) : Prop := ∃ i < l.length, htmlBodyOpenTagAt l i

instance (l : Str) : Decidable (HasHtmlBodyOpenTag l) := by
  unfold HasHtmlBodyOpenTag; infer_instance

/-- `pat` occurs as a substring of `l` (position-based, decidable). -/
def OccursIn (pat l : Str) : Prop := ∃ i < l.length, pat <+: l.drop i

instance (pat l : Str) : Decidable (OccursIn pat l) := by
  unfold OccursIn; infer_instance

-- ===========================================================================
-- Bridging lemmas between the scanners and the spec-side predicates
-- ===========================================================================

theorem firstIdxAux_eq_none (pat : Str) :
    ∀ (l : Str) (i : Nat), (∀ j, ¬ pat <+: l.drop j) → firstIdxAux pat l i = none := by
  intro l
  induction l with
  | nil =>
    intro i h
    have h0 := h 0
    simp only [List.drop_nil] at h0
    simp only [firstIdxAux]
    rw [if_neg]
    intro hb
    exact h0 (List.isPrefixOf_iff_prefix.mp hb)
  | cons c rest ih =>
    intro i h
    simp only [firstIdxAux]
    rw [if_neg]
    · exact ih (i + 1) (fun j => h (j + 1))
    · intro hb
      exact h 0 (List.isPrefixOf_iff_prefix.mp hb)

theorem firstIdxAux_append (pat : Str) :
    ∀ (p rest : Str) (i : Nat),
      (∀ j < p.length, ¬ pat <+: (p ++ rest).drop j) → pat <+: rest →
      firstIdxAux pat (p ++ rest) i = some (i + p.length) := by
  intro p
  induction p with
  | nil =>
    intro rest i _ hpre
    cases rest with
    | nil =>
      simp only [List.nil_append, firstIdxAux]
      rw [if_pos (List.isPrefixOf_iff_prefix.mpr hpre)]
      simp
    | cons c r =>
      simp only [List.nil_append, firstIdxAux]
      rw [if_pos (List.isPrefixOf_iff_prefix.mpr hpre)]
      simp
  | cons c p' ih =>
    intro rest i hmin hpre
    simp only [List.cons_append, firstIdxAux]
    rw [if_neg]
    · have := ih rest (i + 1)
        (fun j hj => by
          have := hmin (j + 1) (by simpa using Nat.succ_lt_succ hj)
          simpa using this)
        hpre
      show firstIdxAux pat (p' ++ rest) (i + 1) = _
      rw [this]
      congr 1
      simp [List.length_cons]
      omega
    · intro hb
      exact hmin 0 (by simp) (by simpa using List.isPrefixOf_iff_prefix.mp hb)

/-- Beyond the end of the string there are no occurrences (for nonempty
patterns). -/
theorem not_occurs_beyond (pat l : Str) (hne : pat ≠ []) (j : Nat)
    (hj : l.length ≤ j) : ¬ pat <+: l.drop j := by
  rw [List.drop_eq_nil_of_le hj]
  intro h
  exact hne (List.prefix_nil.mp h)

theorem no_occurrence_all (pat l : Str) (hne : pat ≠ [])
    (h : ¬ OccursIn pat l) : ∀ j, ¬ pat <+: l.drop j := by
  intro j
  by_cases hj : j < l.length
  · intro hp
    exact h ⟨j, hj, hp⟩
  · exact not_occurs_beyond pat l hne j (by omega)

theorem bodyPatternAt_cons (c : Char) (rest : Str) (j : Nat) :
    bodyPatternAt (c :: rest) (j + 1) ↔ bodyPatternAt rest j := by
  unfold bodyPatternAt
  have e1 : (c :: rest).drop (j + 1) = rest.drop j := List.drop_succ_cons
  have e2 : (c :: rest).drop (j + 1 + 5) = rest.drop (j + 5) := by
    have e : j + 1 + 5 = (j + 5) + 1 := by omega
    rw [e, List.drop_succ_cons]
  rw [e1, e2]

theorem findBodyOpenAux_eq_none :
    ∀ (l : Str) (i : Nat), (∀ j, ¬ bodyPatternAt l j) → findBodyOpenAux l i = none := by
  intro l
  induction l with
  | nil => intro i _; rfl
  | cons c rest ih =>
    intro i h
    simp only [findBodyOpenAux]
    have h0 : bodyOpenLenAt (c :: rest) = none := by
      unfold bodyOpenLenAt
      by_cases hc : lower ((c :: rest).take 5) = str "<body"
      · rw [if_pos hc]
        have := h 0
        unfold bodyPatternAt at this
        simp only [List.drop_zero] at this
        have hgt : '>' ∉ (c :: rest).drop 5 := fun hm => this ⟨hc, by simpa using hm⟩
        rw [List.findIdx?_eq_none_iff.mpr]
        · rfl
        · intro x hx
          by_contra hxe
          rw [Bool.not_eq_false, decide_eq_true_eq] at hxe
          exact hgt (hxe ▸ hx)
      · rw [if_neg hc]
    rw [h0]
    exact ih (i + 1) (fun j hb => h (j + 1) ((bodyPatternAt_cons c rest j).mpr hb))

/-- If the `/<body[^>]*>/i` pattern occurs nowhere, the cover insertion is
the identity. -/
theorem insertCover_id_of_no_body (html c : Str)
    (h : ¬ BodyPatternOccurs html) : insertCover html c = html := by
  have hall : ∀ j, ¬ bodyPatternAt html j := by
    intro j
    by_cases hj : j < html.length
    · intro hp; exact h ⟨j, hj, hp⟩
    · intro hp
      rcases hp with ⟨hpre, hmem⟩
      have : html.drop j = [] := List.drop_eq_nil_of_le (by omega)
      rw [List.drop_eq_nil_of_le (by omega : html.length ≤ j + 5)] at hmem
      exact absurd hmem (List.not_mem_nil _)
  unfold insertCover replaceAfterBodyOpen findBodyOpen
  rw [findBodyOpenAux_eq_none html 0 hall]

-- ===========================================================================
-- Claim C10 — cover insertion on documents without an opening body tag
-- ===========================================================================

/-- C10 (counterexample): the claim "for every document string containing no
opening body tag, cover insertion returns the document unchanged" is false:
`"<bodyguard>x"` contains no HTML opening body tag, yet `_insertCover`
treats `<bodyguard>` as a match of its `/<body[^>]*>/i` pattern and splices
the cover after it. -/
theorem c10_counterexample :
    ¬ HasHtmlBodyOpenTag (str "<bodyguard>x") ∧
      insertCover (str "<bodyguard>x") (str "<div>C</div>")
        = str "<bodyguard>\n<div>C</div>x" ∧
      insertCover (str "<bodyguard>x") (str "<div>C</div>") ≠ str "<bodyguard>x" := by
  refine ⟨by decide, by decide, by decide⟩

/-- C10 (amended): for every document string containing no match of the
source's `/<body[^>]*>/i` pattern (a case-insensitive `<body` later closed
by `>`), cover insertion returns the document unchanged — the cover block
is silently dropped without raising any error. -/
theorem c10_amended (html c : Str) (h : ¬ BodyPatternOccurs html) :
    insertCover html c = html :=
  insertCover_id_of_no_body html c h

/-- C10 witness: the amended theorem applied at a concrete document. -/
theorem c10_amended_witness :
    insertCover (str "<div>x</div>") (str "C") = str "<div>x</div>" :=
  c10_amended (str "<div>x</div>") (str "C") (by decide)

-- ===========================================================================
-- Claim C2 — where `_insertTOC` places the generated TOC block
-- ===========================================================================

/-- Spec-side definition for C2, following the specification's words: the
TOC would be placed "immediately after the opening body tag" — this is the
source's own body-tag replacement, applied unconditionally. -/
def insertAfterBodyOpenSpec (html tocHtml : Str) : Str :=
  replaceAfterBodyOpen html tocHtml

/-- Characters of the cover marker are never `<`, so `"</div>"` cannot
start inside the marker region. -/
theorem closeDiv_not_in_marker (j : Nat) (hj : j < 15) (z : Str) :
    ¬ closeDivTag <+: (coverMarker.drop j ++ z) := by
  intro h
  have hlen : coverMarker.drop j ≠ [] := by
    intro he
    have : (coverMarker.drop j).length = 15 - j := by
      simp [coverMarker, str]
    rw [he] at this
    simp at this
    omega
  obtain ⟨c, rest', hcr⟩ := List.exists_cons_of_ne_nil hlen
  have hne : ∀ j' < 15, (coverMarker.drop j').head? ≠ some '<' := by decide
  have hc : c ≠ '<' := by
    intro hce
    apply hne j hj
    rw [hcr, hce]
    rfl
  rw [hcr, List.cons_append,
    show closeDivTag = '<' :: str "/div>" from rfl, List.cons_prefix_cons] at h
  exact hc h.1.symm

/-- `insertTOC` when the `"</div>"` search succeeds. -/
theorem insertTOC_eq_of_found (html t : Str) (i : Nat)
    (h : idxFrom closeDivTag html ((firstIdx coverMarker html).getD 0) = some i) :
    insertTOC html t = html.take (i + 6) ++ '\n' :: t ++ html.drop (i + 6) := by
  simp only [insertTOC, h]

/-- `insertTOC` when the `"</div>"` search fails. -/
theorem insertTOC_eq_of_none (html t : Str)
    (h : idxFrom closeDivTag html ((firstIdx coverMarker html).getD 0) = none) :
    insertTOC html t = replaceAfterBodyOpen html t := by
  simp only [insertTOC, h]

/-- C2 helper, cover absent: the TOC lands right after the first `"</div>"`
of the document, not after the opening body tag. -/
theorem insertTOC_noCover (p s t : Str)
    (hnc : ¬ OccursIn coverMarker (p ++ closeDivTag ++ s))
    (hmin : ∀ j < p.length, ¬ closeDivTag <+: (p ++ closeDivTag ++ s).drop j) :
    insertTOC (p ++ closeDivTag ++ s) t = p ++ closeDivTag ++ '\n' :: t ++ s := by
  have hall := no_occurrence_all coverMarker _ (by decide) hnc
  have hcov : firstIdx coverMarker (p ++ closeDivTag ++ s) = none :=
    firstIdxAux_eq_none coverMarker _ 0 hall
  have hfind : firstIdx closeDivTag (p ++ closeDivTag ++ s) = some p.length := by
    have := firstIdxAux_append closeDivTag p (closeDivTag ++ s) 0
      (fun j hj => by simpa using hmin j hj) (List.prefix_append _ _)
    simpa [firstIdx] using this
  have hidx : idxFrom closeDivTag (p ++ closeDivTag ++ s)
      ((firstIdx coverMarker (p ++ closeDivTag ++ s)).getD 0) = some p.length := by
    rw [hcov]
    simp only [Option.getD_none, idxFrom, List.drop_zero, hfind]
    simp
  rw [insertTOC_eq_of_found _ _ _ hidx]
  have htake : (p ++ closeDivTag ++ s).take (p.length + 6) = p ++ closeDivTag := by
    rw [show p ++ closeDivTag ++ s = (p ++ closeDivTag) ++ s by simp]
    exact List.take_left' (by simp [closeDivTag, str])
  have hdrop : (p ++ closeDivTag ++ s).drop (p.length + 6) = s := by
    rw [show p ++ closeDivTag ++ s = (p ++ closeDivTag) ++ s by simp]
    exact List.drop_left' (by simp [closeDivTag, str])
  rw [htake, hdrop]

/-- C2 helper, cover present: the `"</div>"` search starts at the marker and
the TOC lands right after the first `"</div>"` at or after it. -/
theorem insertTOC_withCover (p q r t : Str)
    (hp : ∀ j < p.length,
      ¬ coverMarker <+: (p ++ coverMarker ++ q ++ closeDivTag ++ r).drop j)
    (hq : ∀ j < q.length, ¬ closeDivTag <+: (q ++ closeDivTag ++ r).drop j) :
    insertTOC (p ++ coverMarker ++ q ++ closeDivTag ++ r) t
      = p ++ coverMarker ++ q ++ closeDivTag ++ '\n' :: t ++ r := by
  have hcov : firstIdx coverMarker (p ++ coverMarker ++ q ++ closeDivTag ++ r)
      = some p.length := by
    have := firstIdxAux_append coverMarker p (coverMarker ++ (q ++ closeDivTag ++ r)) 0
      (by simpa using hp) (List.prefix_append _ _)
    simpa [firstIdx] using this
  have hdropp : (p ++ coverMarker ++ q ++ closeDivTag ++ r).drop p.length
      = (coverMarker ++ q) ++ (closeDivTag ++ r) := by
    rw [show p ++ coverMarker ++ q ++ closeDivTag ++ r
        = p ++ (coverMarker ++ q ++ (closeDivTag ++ r)) by simp]
    rw [List.drop_left]
  have hmin2 : ∀ j < (coverMarker ++ q).length,
      ¬ closeDivTag <+: ((coverMarker ++ q) ++ (closeDivTag ++ r)).drop j := by
    intro j hj
    by_cases h15 : j < 15
    · rw [show (coverMarker ++ q) ++ (closeDivTag ++ r)
          = coverMarker ++ (q ++ (closeDivTag ++ r)) by simp]
      rw [List.drop_append_of_le_length (by simp [coverMarker, str]; omega)]
      exact closeDiv_not_in_marker j h15 _
    · have h15' : 15 ≤ j := by omega
      rw [show (coverMarker ++ q) ++ (closeDivTag ++ r)
          = coverMarker ++ (q ++ closeDivTag ++ r) by simp]
      rw [show j = coverMarker.length + (j - 15) by simp [coverMarker, str]; omega]
      rw [List.drop_append]
      apply hq
      have : (coverMarker ++ q).length = 15 + q.length := by
        simp [coverMarker, str]
        omega
      omega
  have hfind : firstIdx closeDivTag ((coverMarker ++ q) ++ (closeDivTag ++ r))
      = some (15 + q.length) := by
    have := firstIdxAux_append closeDivTag (coverMarker ++ q) (closeDivTag ++ r) 0
      hmin2 (List.prefix_append _ _)
    rw [firstIdx, this]
    congr 1
    simp [coverMarker, str]
    omega
  have hidx : idxFrom closeDivTag (p ++ coverMarker ++ q ++ closeDivTag ++ r)
      ((firstIdx coverMarker (p ++ coverMarker ++ q ++ closeDivTag ++ r)).getD 0)
      = some (p.length + 15 + q.length) := by
    rw [hcov]
    simp only [Option.getD_some, idxFrom, hdropp, hfind]
    simp only [Option.map_some']
    congr 1
    omega
  rw [insertTOC_eq_of_found _ _ _ hidx]
  have htake : (p ++ coverMarker ++ q ++ closeDivTag ++ r).take (p.length + 15 + q.length + 6)
      = p ++ coverMarker ++ q ++ closeDivTag := by
    rw [show p ++ coverMarker ++ q ++ closeDivTag ++ r
        = (p ++ coverMarker ++ q ++ closeDivTag) ++ r by simp]
    exact List.take_left' (by simp [coverMarker, closeDivTag, str]; omega)
  have hdrop : (p ++ coverMarker ++ q ++ closeDivTag ++ r).drop (p.length + 15 + q.length + 6)
      = r := by
    rw [show p ++ coverMarker ++ q ++ closeDivTag ++ r
        = (p ++ coverMarker ++ q ++ closeDivTag) ++ r by simp]
    exact List.drop_left' (by simp [coverMarker, closeDivTag, str]; omega)
  rw [htake, hdrop]

/-- C2 helper, no `"</div>"` anywhere: fall back to the body-open tag. -/
theorem insertTOC_noDiv (html t : Str) (h : ¬ OccursIn closeDivTag html) :
    insertTOC html t = replaceAfterBodyOpen html t := by
  have hall := no_occurrence_all closeDivTag html (by decide) h
  apply insertTOC_eq_of_none
  have hnone : firstIdx closeDivTag
      (html.drop ((firstIdx coverMarker html).getD 0)) = none := by
    rw [firstIdx]
    apply firstIdxAux_eq_none
    intro j
    rw [List.drop_drop]
    exact hall _
  rw [idxFrom, hnone]
  rfl

/-- C2 (counterexample): the claim "TOC insertion places the TOC immediately
after the opening body tag when no cover block is present" is false: with no
`chips-pdf-cover` marker, JS `indexOf(-1)` clamping makes `_insertTOC` insert
after the first `"</div>"` of the document instead. -/
theorem c2_counterexample :
    ¬ OccursIn coverMarker (str "<body><div>x</div></body>") ∧
      insertTOC (str "<body><div>x</div></body>") (str "[TOC]")
        = str "<body><div>x</div>\n[TOC]</body>" ∧
      insertTOC (str "<body><div>x</div></body>") (str "[TOC]")
        ≠ insertAfterBodyOpenSpec (str "<body><div>x</div></body>") (str "[TOC]") := by
  refine ⟨by decide, by decide, by decide⟩

/-- C2 (amended): `_insertTOC` places the TOC immediately after the first
`"</div>"` occurring at or after the first occurrence of the
`chips-pdf-cover` marker — searching from the start of the document when
the marker is absent, because JS `indexOf` clamps the `-1` to `0` — and it
places the TOC immediately after the opening body tag only when no such
`"</div>"` exists. -/
theorem c2_amended :
    (∀ p s t, ¬ OccursIn coverMarker (p ++ closeDivTag ++ s) →
      (∀ j < p.length, ¬ closeDivTag <+: (p ++ closeDivTag ++ s).drop j) →
      insertTOC (p ++ closeDivTag ++ s) t = p ++ closeDivTag ++ '\n' :: t ++ s) ∧
    (∀ p q r t,
      (∀ j < p.length,
        ¬ coverMarker <+: (p ++ coverMarker ++ q ++ closeDivTag ++ r).drop j) →
      (∀ j < q.length, ¬ closeDivTag <+: (q ++ closeDivTag ++ r).drop j) →
      insertTOC (p ++ coverMarker ++ q ++ closeDivTag ++ r) t
        = p ++ coverMarker ++ q ++ closeDivTag ++ '\n' :: t ++ r) ∧
    (∀ html t, ¬ OccursIn closeDivTag html →
      insertTOC html t = replaceAfterBodyOpen html t) :=
  ⟨insertTOC_noCover, insertTOC_withCover, insertTOC_noDiv⟩

/-- C2 witness: the amended theorem applied at concrete documents. -/
theorem c2_amended_witness :
    insertTOC (str "<body><p>x</p>" ++ closeDivTag ++ str "</body>") (str "T")
        = str "<body><p>x</p>" ++ closeDivTag ++ '\n' :: str "T" ++ str "</body>" ∧
      insertTOC (str "<body>") (str "T")
        = replaceAfterBodyOpen (str "<body>") (str "T") :=
  ⟨c2_amended.1 (str "<body><p>x</p>") (str "</body>") (str "T")
      (by decide) (by decide),
    c2_amended.2.2 (str "<body>") (str "T") (by decide)⟩

-- ===========================================================================
-- Data model: configs and metadata (types.ts)
-- ===========================================================================

/-- `CoverConfig` (types.ts): all fields optional. -/
structure CoverConfig where
  enabled : Option Bool := none
  title : Option Str := none
  subtitle : Option Str := none
  showAuthor : Option Bool := none
  showDate : Option Bool := none
  showVersion : Option Bool := none
  customTemplate : Option Str := none
deriving DecidableEq

/-- `TOCConfig` (types.ts): all fields optional. -/
structure TOCConfig where
  enabled : Option Bool := none
  title : Option Str := none
  maxDepth : Option Nat := none
  showPageNumbers : Option Bool := none
deriving DecidableEq

/-- The slice of `CardMetadata` the plugin reads. -/
structure CardMetadata where
  name : Option Str := none
  description : Option Str := none
  createdAt : Option Str := none
  modifiedAt : Option Str := none
  version : Option Str := none
  chipsStandardsVersion : Option Str := none
  id : Option Str := none
deriving DecidableEq

/-- JS truthiness of an optional boolean (`undefined` and `false` are
falsy). -/
def truthyB (b : Option Bool) : Bool := b.getD false

/-- JS truthiness of an optional string (`undefined` and `""` are falsy). -/
def truthyS (s : Option Str) : Bool :=
  match s with
  | some v => !v.isEmpty
  | none => false

/-- Environment for `Date` formatting: `toLocaleDateString('zh-CN')` of a
parsed timestamp, and of the current date. -/
structure DateEnv where
  localeDate : Str → Str
  todayLocale : Str

-- ===========================================================================
-- `_escapeHtml` (plugin.ts:944)
-- ===========================================================================

/-- The `htmlEntities` record of `_escapeHtml`. -/
def htmlEntities : List (Char × Str) :=
  [('&', str "&amp;"), ('<', str "&lt;"), ('>', str "&gt;"),
   ('"', str "&quot;"), ('\'', str "&#39;")]

/-- `_escapeHtml`: `str.replace(/[&<>"']/g, (char) => htmlEntities[char] ?? char)`.
The character class matches single characters, so the global replace is a
per-character map. -/
def escapeHtml : Str → Str
  | [] => []
  | c :: rest =>
    (if c ∈ ['&', '<', '>', '"', '\''] then (htmlEntities.lookup c).getD [c] else [c])
      ++ escapeHtml rest

/-- Spec-side characterization: the HTML entity each character should
become ("each occurrence ... appears in the generated markup as its HTML
entity"). -/
def entityFor (c : Char) : Str :=
  if c = '&' then str "&amp;"
  else if c = '<' then str "&lt;"
  else if c = '>' then str "&gt;"
  else if c = '"' then str "&quot;"
  else if c = '\'' then str "&#39;"
  else [c]

theorem escapeHtml_eq_entityExpansion (s : Str) :
    escapeHtml s = (s.map entityFor).flatten := by
  induction s with
  | nil => rfl
  | cons c rest ih =>
    simp only [escapeHtml, List.map_cons, List.flatten_cons, ih]
    congr 1
    by_cases h1 : c = '&'
    · subst h1; rfl
    by_cases h2 : c = '<'
    · subst h2; rfl
    by_cases h3 : c = '>'
    · subst h3; rfl
    by_cases h4 : c = '"'
    · subst h4; rfl
    by_cases h5 : c = '\''
    · subst h5; rfl
    rw [if_neg (by simp [h1, h2, h3, h4, h5]), entityFor,
      if_neg h1, if_neg h2, if_neg h3, if_neg h4, if_neg h5]

-- ===========================================================================
-- Heading extraction: the `/<h([1-6])[^>]*>([^<]*)<\/h[1-6]>/gi` scan
-- ===========================================================================

/-- JS whitespace trimmed by `String.prototype.trim` (ASCII part). -/
def isJSSpace (c : Char) : Bool :=
  c = ' ' ∨ c = '\t' ∨ c = '\n' ∨ c = '\r' ∨ c = '\x0b' ∨ c = '\x0c'

/-- JS `text.trim()`. -/
def trimStr (l : Str) : Str :=
  ((l.dropWhile isJSSpace).reverse.dropWhile isJSSpace).reverse

/-- Decimal representation of a `Nat` (JS number interpolation). -/
def natStr (n : Nat) : Str := (Nat.repr n).data

/-- Anchored match of `/<h([1-6])[^>]*>([^<]*)<\/h[1-6]>/i`: returns the
heading level, the raw captured text and the total match length. `[^>]*`
and `[^<]*` cannot cross their stop characters, so both extend exactly to
the next stop character and the match is deterministic. -/
def headMatchAt : Str → Option (Nat × Str × Nat)
  | '<' :: h :: d :: rest =>
    if h.toLower = 'h' ∧ '1' ≤ d ∧ d ≤ '6' then
      match rest.findIdx? (· = '>') with
      | some a =>
        let afterOpen := rest.drop (a + 1)
        match afterOpen.findIdx? (· = '<') with
        | some tIdx =>
          match afterOpen.drop tIdx with
          | '<' :: '/' :: h2 :: d2 :: '>' :: _ =>
            if h2.toLower = 'h' ∧ '1' ≤ d2 ∧ d2 ≤ '6' then
              some (d.toNat - '0'.toNat, afterOpen.take tIdx, 3 + a + 1 + tIdx + 5)
            else none
          | _ => none
        | none => none
      | none => none
    else none
  | _ => none

/-- The source's scan loop in `_generateTOCHTML` (plugin.ts:702): successive
non-overlapping leftmost matches, keeping only headings with
`level <= maxDepth`. Fuel is the length of the string; every step consumes
at least one character. -/
def scanHeadingsAux (maxD : Nat) : Nat → Str → List (Nat × Str)
  | 0, _ => []
  | fuel + 1, l =>
    match headMatchAt l with
    | some (lev, text, len) =>
      (if lev ≤ maxD then [(lev, trimStr text)] else [])
        ++ scanHeadingsAux maxD fuel (l.drop len)
    | none =>
      match l with
      | [] => []
      | _ :: rest => scanHeadingsAux maxD fuel rest

/-- Spec-side unfiltered scan: all headings the regex recognizes. -/
def scanAllHeadingsAux : Nat → Str → List (Nat × Str)
  | 0, _ => []
  | fuel + 1, l =>
    match headMatchAt l with
    | some (lev, text, len) =>
      (lev, trimStr text) :: scanAllHeadingsAux fuel (l.drop len)
    | none =>
      match l with
      | [] => []
      | _ :: rest => scanAllHeadingsAux fuel rest

/-- All regex-recognizable headings of a document. -/
def docHeadings (html : Str) : List (Nat × Str) :=
  scanAllHeadingsAux html.length html

/-- The headings retained by `_generateTOCHTML` for a given config
(`config.maxDepth ?? 3`). -/
def tocHeadings (html : Str) (config : TOCConfig) : List (Nat × Str) :=
  scanHeadingsAux (config.maxDepth.getD 3) html.length html

theorem scanHeadingsAux_eq_filter (maxD : Nat) :
    ∀ (fuel : Nat) (l : Str),
      scanHeadingsAux maxD fuel l
        = (scanAllHeadingsAux fuel l).filter (fun h => decide (h.1 ≤ maxD)) := by
  intro fuel
  induction fuel with
  | zero => intro l; rfl
  | succ f ih =>
    intro l
    simp only [scanHeadingsAux, scanAllHeadingsAux]
    cases hm : headMatchAt l with
    | some v =>
      obtain ⟨lev, text, len⟩ := v
      simp only [List.filter_cons, ih]
      by_cases hle : lev ≤ maxD
      · rw [if_pos hle, if_pos (by simpa using hle)]
        rfl
      · rw [if_neg hle, if_neg (by simpa using hle)]
        rfl
    | none =>
      cases l with
      | nil => rfl
      | cons c rest => exact ih rest

-- ===========================================================================
-- `_generateTOCHTML` (plugin.ts:696)
-- ===========================================================================

/-- Head of the TOC template, up to the spliced (escaped) title. -/
def tocHeadA : Str := str "\n      <div class=\"chips-pdf-toc\" style=\"\n        page-break-after: always;\n        padding: 20mm;\n      \">\n        <h1 style=\"\n          font-size: 24pt;\n          font-weight: bold;\n          margin-bottom: 20pt;\n          text-align: center;\n        \">"

/-- TOC template between the title and the entry list. -/
def tocHeadB : Str := str "</h1>\n        <div class=\"toc-entries\" style=\"\n          font-size: 12pt;\n          line-height: 2;\n        \">\n    "

/-- One TOC entry (plugin.ts:730): indent `(level-1)*20`, escaped text, and
an optional page number `index + 2`. -/
def tocEntryHtml (showPN : Bool) (idx : Nat) (h : Nat × Str) : Str :=
  str "\n        <div style=\"\n          padding-left: " ++ natStr ((h.1 - 1) * 20)
    ++ str "pt;\n          display: flex;\n          justify-content: space-between;\n        \">\n          <span>"
    ++ escapeHtml h.2 ++ str "</span>\n          "
    ++ (if showPN then str "<span>" ++ natStr (idx + 2) ++ str "</span>" else [])
    ++ str "\n        </div>\n      "

/-- `_generateTOCHTML`. -/
def generateTOCHTML (html : Str) (config : TOCConfig) : Str :=
  let headings := tocHeadings html config
  tocHeadA ++ escapeHtml (config.title.getD (str "目录")) ++ tocHeadB
    ++ (headings.enum.map
        (fun p => tocEntryHtml (truthyB config.showPageNumbers) p.1 p.2)).flatten
    ++ str "</div></div>"

-- ===========================================================================
-- `_generateCoverHTML` (plugin.ts:604)
-- ===========================================================================

/-- Literal global replace (the `/\{\{name\}\}/g` substitutions of the
custom-template path). Fuel is the string length; every step consumes at
least one character for the nonempty patterns used. -/
def replaceAllLitAux (pat repl : Str) : Nat → Str → Str
  | 0, l => l
  | fuel + 1, l =>
    if pat.isPrefixOf l ∧ l ≠ [] then
      repl ++ replaceAllLitAux pat repl fuel (l.drop pat.length)
    else
      match l with
      | [] => []
      | c :: rest => c :: replaceAllLitAux pat repl fuel rest

/-- JS `s.replace(/pat/g, repl)` for a literal pattern. -/
def replaceAllLit (pat repl l : Str) : Str := replaceAllLitAux pat repl l.length l

/-- Cover template up to the spliced (escaped) title. -/
def coverHeadA : Str := str "\n      <div class=\"chips-pdf-cover\" style=\"\n        display: flex;\n        flex-direction: column;\n        justify-content: center;\n        align-items: center;\n        height: 100vh;\n        page-break-after: always;\n        text-align: center;\n        padding: 40mm;\n        box-sizing: border-box;\n      \">\n        <h1 style=\"\n          font-size: 32pt;\n          font-weight: bold;\n          margin-bottom: 20pt;\n          color: #333;\n        \">"

/-- Cover template right after the title. -/
def coverHeadB : Str := str "</h1>\n    "

/-- Subtitle block, before the spliced (escaped) subtitle. -/
def coverSubA : Str := str "\n        <p style=\"\n          font-size: 16pt;\n          color: #666;\n          margin-bottom: 40pt;\n        \">"

/-- Subtitle block, after the subtitle. -/
def coverSubB : Str := str "</p>\n      "

/-- Metadata line, before the joined items. -/
def coverMetaA : Str := str "\n        <div style=\"\n          font-size: 12pt;\n          color: #999;\n          margin-top: auto;\n        \">\n          "

/-- Metadata line, after the joined items. -/
def coverMetaB : Str := str "\n        </div>\n      "

/-- `_generateCoverHTML`: custom-template path substitutes the five
placeholders with raw (unescaped) values; the default path splices the
escaped title, the escaped subtitle when nonempty, and a metadata line of
the enabled items joined with a middle dot. -/
def generateCoverHTML (denv : DateEnv) (metadata : CardMetadata)
    (config : CoverConfig) : Str :=
  let date := if truthyS metadata.createdAt
    then denv.localeDate (metadata.createdAt.getD [])
    else denv.todayLocale
  match config.customTemplate with
  | some tpl =>
    replaceAllLit (str "\x7b\x7bversion\x7d\x7d") (metadata.version.getD (str "1.0.0"))
      (replaceAllLit (str "\x7b\x7bdate\x7d\x7d") date
        (replaceAllLit (str "\x7b\x7bauthor\x7d\x7d") (str "薯片生态")
          (replaceAllLit (str "\x7b\x7bsubtitle\x7d\x7d") (config.subtitle.getD [])
            (replaceAllLit (str "\x7b\x7btitle\x7d\x7d")
              ((config.title <|> metadata.name).getD (str "未命名卡片")) tpl))))
  | none =>
    let title := (config.title <|> metadata.name).getD (str "未命名卡片")
    let subtitle := (config.subtitle <|> metadata.description).getD []
    let version := metadata.version.getD (str "1.0.0")
    let metaItems : List Str :=
      (if truthyB config.showAuthor then [str "薯片生态"] else [])
        ++ (if truthyB config.showDate then [date] else [])
        ++ (if truthyB config.showVersion then ['v' :: version] else [])
    coverHeadA ++ escapeHtml title ++ coverHeadB
      ++ (if subtitle ≠ [] then coverSubA ++ escapeHtml subtitle ++ coverSubB else [])
      ++ (if metaItems ≠ [] then
            coverMetaA ++ List.intercalate (str " · ") metaItems ++ coverMetaB
          else [])
      ++ str "</div>"

-- ===========================================================================
-- Claim C7 — TOC depth filtering
-- ===========================================================================

/-- C7: the scan of `_generateTOCHTML` retains exactly the headings whose
level is at most `maxDepth` (it is the depth-filter of the full heading
scan), and a document whose recognized headings have levels `1,2,3,4` (one
each, in any order) yields exactly two TOC entries at `maxDepth = 2`. -/
theorem c7_toc_maxdepth :
    (∀ maxD fuel l, scanHeadingsAux maxD fuel l
        = (scanAllHeadingsAux fuel l).filter (fun h => decide (h.1 ≤ maxD))) ∧
    (∀ html cfg, cfg.maxDepth = some 2 →
      ((docHeadings html).map Prod.fst).Perm [1, 2, 3, 4] →
      (tocHeadings html cfg).length = 2) := by
  refine ⟨scanHeadingsAux_eq_filter, ?_⟩
  intro html cfg hmd hperm
  unfold tocHeadings
  rw [hmd]
  simp only [Option.getD_some]
  rw [scanHeadingsAux_eq_filter, ← List.countP_eq_length_filter]
  have h1 : ((docHeadings html).map Prod.fst).countP (fun n => decide (n ≤ 2))
      = (scanAllHeadingsAux html.length html).countP (fun h => decide (h.1 ≤ 2)) := by
    rw [List.countP_map]
    rfl
  rw [← h1, hperm.countP_eq]
  decide

/-- C7 witness: one heading each of levels 1–4, `maxDepth = 2`, two
entries. -/
theorem c7_toc_maxdepth_witness :
    (tocHeadings (str "<h1>a</h1><h2>b</h2><h3>c</h3><h4>d</h4>")
      { maxDepth := some 2 }).length = 2 :=
  c7_toc_maxdepth.2 (str "<h1>a</h1><h2>b</h2><h3>c</h3><h4>d</h4>")
    { maxDepth := some 2 } rfl (by decide)

-- ===========================================================================
-- Infix helper lemmas for C9
-- ===========================================================================

theorem infix_of_infix_left {l m : Str} (a : Str) (h : l <:+: m) : l <:+: a ++ m :=
  h.trans (List.suffix_append a m).isInfix

theorem infix_of_infix_right {l m : Str} (b : Str) (h : l <:+: m) : l <:+: m ++ b :=
  h.trans (List.prefix_append m b).isInfix

theorem mem_enumFrom_of_mem {α : Type} (x : α) :
    ∀ (l : List α) (n : Nat), x ∈ l → ∃ i, (i, x) ∈ l.enumFrom n := by
  intro l
  induction l with
  | nil => intro n h; cases h
  | cons a as ih =>
    intro n h
    rcases List.mem_cons.mp h with h | h
    · exact ⟨n, by rw [h]; exact List.mem_cons_self _ _⟩
    · rcases ih (n + 1) h with ⟨i, hi⟩
      exact ⟨i, List.mem_cons_of_mem _ hi⟩

theorem infix_flatten_of_mem {y : Str} :
    ∀ {L : List Str}, y ∈ L → y <:+: L.flatten := by
  intro L
  induction L with
  | nil => intro h; cases h
  | cons a as ih =>
    intro h
    rcases List.mem_cons.mp h with h | h
    · rw [List.flatten_cons, h]
      exact (List.prefix_append _ _).isInfix
    · rw [List.flatten_cons]
      exact infix_of_infix_left a (ih h)

theorem infix_middle (a e rest : Str) : e <:+: a ++ e ++ rest := ⟨a, rest, rfl⟩

-- ===========================================================================
-- Claim C9 — HTML escaping of spliced text
-- ===========================================================================

/-- C9: `_escapeHtml` expands every occurrence of `& < > " '` to its HTML
entity; the default cover path splices the escaped title and (when
nonempty) the escaped subtitle; the TOC splices the escaped TOC title and
the escaped text of every retained heading; and the custom cover template
path substitutes placeholder values raw, without this escaping. -/
theorem c9_escaping :
    (∀ s, escapeHtml s = (s.map entityFor).flatten) ∧
    (∀ denv md cfg t, cfg.customTemplate = none → cfg.title = some t →
      escapeHtml t <:+: generateCoverHTML denv md cfg) ∧
    (∀ denv md cfg s, cfg.customTemplate = none → cfg.subtitle = some s → s ≠ [] →
      escapeHtml s <:+: generateCoverHTML denv md cfg) ∧
    (∀ html cfg, escapeHtml (cfg.title.getD (str "目录")) <:+: generateTOCHTML html cfg) ∧
    (∀ html cfg lev text, (lev, text) ∈ tocHeadings html cfg →
      escapeHtml text <:+: generateTOCHTML html cfg) ∧
    (∀ denv md, generateCoverHTML denv md
        { customTemplate := some (str "\x7b\x7btitle\x7d\x7d"),
          title := some (str "a<b&\"c") }
      = str "a<b&\"c") := by
  refine ⟨escapeHtml_eq_entityExpansion, ?_, ?_, ?_, ?_, ?_⟩
  · intro denv md cfg t hct htl
    simp only [generateCoverHTML, hct, htl]
    have hor : ∀ (b : Option Str), (some t <|> b) = some t := fun b => rfl
    rw [hor, Option.getD_some]
    exact infix_of_infix_right _ (infix_of_infix_right _
      (infix_of_infix_right _ (infix_middle _ _ _)))
  · intro denv md cfg s hct hst hne
    simp only [generateCoverHTML, hct, hst]
    have hor : ∀ (b : Option Str), (some s <|> b) = some s := fun b => rfl
    rw [hor, Option.getD_some, if_pos hne]
    exact infix_of_infix_right _ (infix_of_infix_right _
      (infix_of_infix_left _ (infix_middle _ _ _)))
  · intro html cfg
    simp only [generateTOCHTML]
    exact infix_of_infix_right _ (infix_of_infix_right _ (infix_middle _ _ _))
  · intro html cfg lev text hmem
    simp only [generateTOCHTML]
    obtain ⟨i, hi⟩ := mem_enumFrom_of_mem (lev, text) (tocHeadings html cfg) 0 hmem
    have hentry := List.mem_map_of_mem
      (fun p : Nat × (Nat × Str) =>
        tocEntryHtml (truthyB cfg.showPageNumbers) p.1 p.2) hi
    have h1 : escapeHtml text
        <:+: tocEntryHtml (truthyB cfg.showPageNumbers) i (lev, text) := by
      unfold tocEntryHtml
      exact infix_of_infix_right _ (infix_of_infix_right _ (infix_middle _ _ _))
    exact infix_of_infix_right _ (infix_of_infix_left _
      (h1.trans (infix_flatten_of_mem hentry)))
  · intro denv md
    rfl

/-- C9 witness: the theorem applied at concrete inputs. -/
theorem c9_escaping_witness :
    escapeHtml (str "A&B")
        <:+: generateCoverHTML ⟨fun _ => str "2024/1/1", str "2024/1/1"⟩ {}
              { title := some (str "A&B") } ∧
      escapeHtml (str "A&B")
        <:+: generateTOCHTML (str "<h1>A&B</h1>") {} :=
  ⟨c9_escaping.2.1 ⟨fun _ => str "2024/1/1", str "2024/1/1"⟩ {}
      { title := some (str "A&B") } (str "A&B") rfl rfl,
    c9_escaping.2.2.2.2.1 (str "<h1>A&B</h1>") {} 1 (str "A&B") (by decide)⟩

-- ===========================================================================
-- Options, defaults, merge, validation (plugin.ts:49-102, 321-429)
-- ===========================================================================

/-- `PageSize` (types.ts). -/
inductive PageSize
  | A4 | A3 | Letter | Legal | Tabloid | custom
deriving DecidableEq

/-- `PageOrientation` (types.ts). -/
inductive PageOrientation
  | portrait | landscape
deriving DecidableEq

/-- `PageDimensions` (types.ts). -/
structure PageDimensions where
  width : Str
  height : Str
deriving DecidableEq

/-- `PAGE_SIZE_MAP` (plugin.ts:74); there is no entry for `custom`. -/
def pageSizeMap : PageSize → Option PageDimensions
  | .A4 => some ⟨str "210mm", str "297mm"⟩
  | .A3 => some ⟨str "297mm", str "420mm"⟩
  | .Letter => some ⟨str "8.5in", str "11in"⟩
  | .Legal => some ⟨str "8.5in", str "14in"⟩
  | .Tabloid => some ⟨str "11in", str "17in"⟩
  | .custom => none

/-- `PageMargin` (types.ts): four independently optional CSS lengths. -/
structure PageMargin where
  top : Option Str := none
  right : Option Str := none
  bottom : Option Str := none
  left : Option Str := none
deriving DecidableEq

/-- `PDFConversionOptions` (types.ts). Scale and wait time are JS numbers;
the claims touch only their ordering, modelled exactly over `Rat`. The
`onProgress` callback is not a field here: the trace returned by `convert`
below is the sequence of `reportProgress` deliveries. -/
structure PDFConversionOptions where
  pageSize : Option PageSize := none
  width : Option Str := none
  height : Option Str := none
  orientation : Option PageOrientation := none
  margin : Option PageMargin := none
  includeCover : Option Bool := none
  includeTableOfContents : Option Bool := none
  printBackground : Option Bool := none
  scale : Option Rat := none
  waitTime : Option Rat := none
  outputPath : Option Str := none
  themeId : Option Str := none
  coverConfig : Option CoverConfig := none
  tocConfig : Option TOCConfig := none
deriving DecidableEq

/-- `_mergeOptions` (plugin.ts:387): caller options spread over
`DEFAULT_OPTIONS`, with a structural merge of the margin sub-object. -/
def mergeOptions (o : Option PDFConversionOptions) : PDFConversionOptions :=
  let oo := o.getD {}
  { pageSize := some (oo.pageSize.getD .A4)
    width := oo.width
    height := oo.height
    orientation := some (oo.orientation.getD .portrait)
    margin := some
      { top := some ((oo.margin.bind PageMargin.top).getD (str "20mm"))
        right := some ((oo.margin.bind PageMargin.right).getD (str "20mm"))
        bottom := some ((oo.margin.bind PageMargin.bottom).getD (str "20mm"))
        left := some ((oo.margin.bind PageMargin.left).getD (str "20mm")) }
    includeCover := some (oo.includeCover.getD true)
    includeTableOfContents := some (oo.includeTableOfContents.getD false)
    printBackground := some (oo.printBackground.getD true)
    scale := some (oo.scale.getD 1)
    waitTime := some (oo.waitTime.getD 1000)
    outputPath := oo.outputPath
    themeId := oo.themeId
    coverConfig := oo.coverConfig
    tocConfig := oo.tocConfig }

/-- The CSS length units accepted by `_isValidCSSLength`. -/
def cssUnits : List Str :=
  [str "mm", str "cm", str "in", str "px", str "pt", str "em", str "rem"]

/-- `_isValidCSSLength` (plugin.ts:427):
`/^\d+(\.\d+)?(mm|cm|in|px|pt|em|rem)$/`. `\d+` and `\.\d+` are anchored
and the unit must consume the remainder, so the regex is equivalent to
this deterministic parse. -/
def isValidCSSLength (value : Str) : Bool :=
  let ds := value.takeWhile Char.isDigit
  let rest := value.dropWhile Char.isDigit
  if ds.isEmpty then false
  else
    match rest with
    | '.' :: r2 =>
      let ds2 := r2.takeWhile Char.isDigit
      let rest2 := r2.dropWhile Char.isDigit
      !ds2.isEmpty && cssUnits.contains rest2
    | _ => cssUnits.contains rest

/-- The margin sides, in the order `validateOptions` visits them. -/
inductive MarginSide
  | top | right | bottom | left
deriving DecidableEq

/-- One entry of the `errors` array of `validateOptions`. The source pushes
diagnostic strings; these tags stand for those messages, naming the rule
that fired. -/
inductive ValidationIssue
  | unsupportedPageSize
  | customNeedsWidthAndHeight
  | unsupportedOrientation
  | scaleOutOfRange
  | invalidMargin (side : MarginSide)
  | negativeWaitTime
deriving DecidableEq

/-- `PDFValidationResult` (types.ts): `errors`/`warnings` are `undefined`
when empty. -/
structure PDFValidationResult where
  valid : Bool
  errors : Option (List ValidationIssue)
  warnings : Option (List Str)
deriving DecidableEq

/-- `validateOptions` (plugin.ts:321): every rule is evaluated and errors
accumulate in source order. The page-size and orientation membership
checks cannot fire for well-typed input (the size map is total away from
`custom` and both orientations are recognized), matching the source where
those breaches are unrepresentable in the `PageSize`/`PageOrientation`
types. -/
def validateOptions (options : PDFConversionOptions) : PDFValidationResult :=
  let e1 := match options.pageSize with
    | some ps =>
      if ps ≠ .custom ∧ (pageSizeMap ps).isNone
      then [ValidationIssue.unsupportedPageSize] else []
    | none => []
  let e2 :=
    if options.pageSize = some .custom
        ∧ (¬ truthyS options.width ∨ ¬ truthyS options.height)
    then [ValidationIssue.customNeedsWidthAndHeight] else []
  let e4 := match options.scale with
    | some sc => if sc ≤ 0 ∨ 2 < sc then [ValidationIssue.scaleOutOfRange] else []
    | none => []
  let marginErr := fun (side : MarginSide) (v : Option Str) =>
    if truthyS v ∧ ¬ isValidCSSLength (v.getD [])
    then [ValidationIssue.invalidMargin side] else []
  let e5 := match options.margin with
    | some m => marginErr .top m.top ++ marginErr .right m.right
        ++ marginErr .bottom m.bottom ++ marginErr .left m.left
    | none => []
  let e6 := match options.waitTime with
    | some w => if w < 0 then [ValidationIssue.negativeWaitTime] else []
    | none => []
  let errors := e1 ++ e2 ++ e4 ++ e5 ++ e6
  { valid := errors.isEmpty
    errors := if errors.isEmpty then none else some errors
    warnings := none }

-- ===========================================================================
-- `_getPageDimensions` and the swap handed to the backend (C6)
-- ===========================================================================

/-- `_getPageDimensions` (plugin.ts:587). The table lookup falls back to A4
dimensions only to make the lookup total; for well-typed non-`custom`
sizes the entry always exists. -/
def getPageDimensions (options : PDFConversionOptions) : PageDimensions :=
  let ps := options.pageSize.getD .A4
  if ps = .custom then
    { width := options.width.getD (str "210mm")
      height := options.height.getD (str "297mm") }
  else
    (pageSizeMap ps).getD ⟨str "210mm", str "297mm"⟩

/-- The `width`/`height` pair placed into `pdfOptions` (plugin.ts:554-566):
resolve dimensions, then swap exactly once when landscape. -/
def pdfPageDims (options : PDFConversionOptions) : Str × Str :=
  let pageDimensions := getPageDimensions options
  let isLandscape := options.orientation = some PageOrientation.landscape
  (if isLandscape then pageDimensions.height else pageDimensions.width,
   if isLandscape then pageDimensions.width else pageDimensions.height)

/-- Spec-side definition for C6, following the specification's words: the
portrait resolution is the fixed table entry of the chosen preset, or the
caller-supplied pair for `custom`. -/
def portraitResolutionSpec (options : PDFConversionOptions) : Option (Str × Str) :=
  match options.pageSize.getD .A4 with
  | .custom =>
    match options.width, options.height with
    | some w, some h => some (w, h)
    | _, _ => none
  | ps => (pageSizeMap ps).map (fun d => (d.width, d.height))

/-- C6: the pair handed to the rendering backend is the portrait
resolution (table entry or caller-supplied custom pair), swapped exactly
once — after resolution — when the orientation is landscape. -/
theorem c6_geometry (options : PDFConversionOptions)
    (hcustom : options.pageSize = some PageSize.custom →
      options.width.isSome ∧ options.height.isSome) :
    some (pdfPageDims options)
      = (portraitResolutionSpec options).map
          (fun p =>
            if options.orientation = some PageOrientation.landscape
            then (p.2, p.1) else p) := by
  have hcases : ∀ (a b : Str),
      ((if options.orientation = some PageOrientation.landscape then b else a,
        if options.orientation = some PageOrientation.landscape then a else b)
        : Str × Str)
      = if options.orientation = some PageOrientation.landscape
        then (b, a) else (a, b) := by
    intro a b
    by_cases hl : options.orientation = some PageOrientation.landscape <;> simp [hl]
  cases hps : options.pageSize with
  | none =>
    simp [pdfPageDims, getPageDimensions, portraitResolutionSpec, hps, pageSizeMap]
    exact hcases _ _
  | some ps =>
    cases ps with
    | custom =>
      obtain ⟨hw, hh⟩ := hcustom hps
      obtain ⟨w, hw'⟩ := Option.isSome_iff_exists.mp hw
      obtain ⟨h, hh'⟩ := Option.isSome_iff_exists.mp hh
      simp [pdfPageDims, getPageDimensions, portraitResolutionSpec, hps, hw', hh']
      exact hcases _ _
    | A4 =>
      simp [pdfPageDims, getPageDimensions, portraitResolutionSpec, hps, pageSizeMap]
      exact hcases _ _
    | A3 =>
      simp [pdfPageDims, getPageDimensions, portraitResolutionSpec, hps, pageSizeMap]
      exact hcases _ _
    | Letter =>
      simp [pdfPageDims, getPageDimensions, portraitResolutionSpec, hps, pageSizeMap]
      exact hcases _ _
    | Legal =>
      simp [pdfPageDims, getPageDimensions, portraitResolutionSpec, hps, pageSizeMap]
      exact hcases _ _
    | Tabloid =>
      simp [pdfPageDims, getPageDimensions, portraitResolutionSpec, hps, pageSizeMap]
      exact hcases _ _

/-- C6 witness: a custom landscape page is the caller pair swapped once. -/
theorem c6_geometry_witness :
    some (pdfPageDims
        { pageSize := some PageSize.custom, width := some (str "100mm"),
          height := some (str "50mm"),
          orientation := some PageOrientation.landscape })
      = some ((str "50mm", str "100mm") : Str × Str) := by
  have h := c6_geometry
    { pageSize := some PageSize.custom, width := some (str "100mm"),
      height := some (str "50mm"),
      orientation := some PageOrientation.landscape }
    (fun _ => by constructor <;> rfl)
  rw [h]
  rfl

-- ===========================================================================
-- Bytes and base64 (`_uint8ArrayToBase64`, plugin.ts:919)
-- ===========================================================================

/-- One byte of a `Uint8Array`. -/
abbrev Byte := Fin 256

/-- The standard base64 alphabet used by `Buffer.toString('base64')`. -/
def base64Chars : Str :=
  str "ABCDEFGHIJKLMNOPQRSTUVWXYZabcdefghijklmnopqrstuvwxyz0123456789+/"

/-- Character for a 6-bit value. -/
def b64Char (v : Nat) : Char := base64Chars.getD v 'A'

/-- `_uint8ArrayToBase64`: `Buffer.from(bytes).toString('base64')` —
standard base64 with `=` padding, three bytes per four characters. -/
def uint8ArrayToBase64 : List Byte → Str
  | [] => []
  | [b1] =>
    let n := b1.val * 65536
    [b64Char (n / 262144), b64Char (n / 4096 % 64), '=', '=']
  | [b1, b2] =>
    let n := b1.val * 65536 + b2.val * 256
    [b64Char (n / 262144), b64Char (n / 4096 % 64), b64Char (n / 64 % 64), '=']
  | b1 :: b2 :: b3 :: rest =>
    let n := b1.val * 65536 + b2.val * 256 + b3.val
    b64Char (n / 262144) :: b64Char (n / 4096 % 64) :: b64Char (n / 64 % 64)
      :: b64Char (n % 64) :: uint8ArrayToBase64 rest

/-- Spec-side: 6-bit value of a base64 character. -/
def b64Val (c : Char) : Option Nat := base64Chars.findIdx? (· = c)

/-- A byte from a Nat (used by the decoder). -/
def mkByte (n : Nat) : Byte := ⟨n % 256, Nat.mod_lt _ (by omega)⟩

/-- Spec-side base64 decoder, for the round-trip part of C5. -/
def decodeBase64 : Str → Option (List Byte)
  | [] => some []
  | c1 :: c2 :: c3 :: c4 :: rest =>
    match b64Val c1, b64Val c2 with
    | some v1, some v2 =>
      if c3 = '=' then
        if c4 = '=' ∧ rest = [] then some [mkByte (v1 * 4 + v2 / 16)] else none
      else
        match b64Val c3 with
        | some v3 =>
          if c4 = '=' then
            if rest = [] then
              some [mkByte (v1 * 4 + v2 / 16), mkByte (v2 % 16 * 16 + v3 / 4)]
            else none
          else
            match b64Val c4 with
            | some v4 =>
              (decodeBase64 rest).map
                (fun tl => mkByte (v1 * 4 + v2 / 16) :: mkByte (v2 % 16 * 16 + v3 / 4)
                  :: mkByte (v3 % 4 * 64 + v4) :: tl)
            | none => none
        | none => none
    | _, _ => none
  | _ => none

theorem b64Val_b64Char : ∀ v < 64, b64Val (b64Char v) = some v := by decide

theorem b64Char_ne_eq : ∀ v < 64, b64Char v ≠ '=' := by decide

theorem decode_uint8ArrayToBase64 :
    ∀ (bs : List Byte), decodeBase64 (uint8ArrayToBase64 bs) = some bs
  | [] => rfl
  | [⟨a, ha⟩] => by
    simp only [uint8ArrayToBase64, decodeBase64]
    rw [b64Val_b64Char (a * 65536 / 262144) (by omega),
        b64Val_b64Char (a * 65536 / 4096 % 64) (by omega)]
    simp only []
    simp only [and_self, if_true]
    simp only [mkByte, Option.some.injEq, List.cons.injEq, and_true, Fin.mk.injEq]
    omega
  | [⟨a, ha⟩, ⟨b, hb⟩] => by
    simp only [uint8ArrayToBase64, decodeBase64]
    rw [b64Val_b64Char ((a * 65536 + b * 256) / 262144) (by omega),
        b64Val_b64Char ((a * 65536 + b * 256) / 4096 % 64) (by omega)]
    simp only []
    rw [if_neg (b64Char_ne_eq ((a * 65536 + b * 256) / 64 % 64) (by omega))]
    rw [b64Val_b64Char ((a * 65536 + b * 256) / 64 % 64) (by omega)]
    simp only []
    simp only [if_true]
    simp only [mkByte, Option.some.injEq, List.cons.injEq, and_true, Fin.mk.injEq]
    constructor <;> omega
  | ⟨a, ha⟩ :: ⟨b, hb⟩ :: ⟨c, hc⟩ :: rest => by
    have ih := decode_uint8ArrayToBase64 rest
    simp only [uint8ArrayToBase64, decodeBase64]
    rw [b64Val_b64Char ((a * 65536 + b * 256 + c) / 262144) (by omega),
        b64Val_b64Char ((a * 65536 + b * 256 + c) / 4096 % 64) (by omega)]
    simp only []
    rw [if_neg (b64Char_ne_eq ((a * 65536 + b * 256 + c) / 64 % 64) (by omega))]
    rw [b64Val_b64Char ((a * 65536 + b * 256 + c) / 64 % 64) (by omega)]
    simp only []
    rw [if_neg (b64Char_ne_eq ((a * 65536 + b * 256 + c) % 64) (by omega))]
    rw [b64Val_b64Char ((a * 65536 + b * 256 + c) % 64) (by omega)]
    simp only []
    rw [ih]
    simp only [Option.map_some', mkByte, Option.some.injEq, List.cons.injEq,
      and_true, Fin.mk.injEq]
    refine ⟨?_, ?_, ?_⟩ <;> omega

-- ===========================================================================
-- Asset map and `_inlineResources` (plugin.ts:832)
-- ===========================================================================

/-- Content of one emitted file: text or binary. -/
inductive AssetContent
  | text (s : Str)
  | bin (bytes : List Byte)
deriving DecidableEq

/-- The emitted-file `Map`: an association list in insertion order with
unique keys. -/
abbrev AssetMap := List (Str × AssetContent)

/-- `filePath.split('/').pop() ?? ''`: the part after the last slash. -/
def basename (p : Str) : Str := (p.reverse.takeWhile (· ≠ '/')).reverse

/-- `_isImagePath` (plugin.ts:892): `/\.(png|jpg|jpeg|gif|webp|svg|ico|bmp)$/i`. -/
def isImagePath (p : Str) : Bool :=
  [str ".png", str ".jpg", str ".jpeg", str ".gif", str ".webp", str ".svg",
   str ".ico", str ".bmp"].any (fun e => e.isSuffixOf (lower p))

/-- `path.split('.').pop()?.toLowerCase() ?? ''`. -/
def extOf (p : Str) : Str := lower ((p.reverse.takeWhile (· ≠ '.')).reverse)

/-- `_getMimeType` (plugin.ts:900). -/
def getMimeType (p : Str) : Str :=
  let mimeTypes : List (Str × Str) :=
    [(str "png", str "image/png"), (str "jpg", str "image/jpeg"),
     (str "jpeg", str "image/jpeg"), (str "gif", str "image/gif"),
     (str "webp", str "image/webp"), (str "svg", str "image/svg+xml"),
     (str "ico", str "image/x-icon"), (str "bmp", str "image/bmp")]
  (List.lookup (extOf p) mimeTypes).getD (str "application/octet-stream")

/-- Case-insensitive anchored literal match (the `i` regex flag). -/
def ciStartsWith (pat l : Str) : Bool :=
  decide (lower (l.take pat.length) = lower pat)

/-- Length of the leading run of characters satisfying `pred` (the maximal
extent of a greedy negated character class). -/
def countWhile (pred : Char → Bool) (l : Str) : Nat := (l.takeWhile pred).length

/-- Greedy backtracking: try `f` at `b`, then `b-1`, … down to `0` (a
greedy `*` takes the longest extent whose continuation matches). -/
def tryFrom (f : Nat → Option Nat) : Nat → Option Nat
  | 0 => f 0
  | b + 1 => (f (b + 1)).orElse (fun _ => tryFrom f b)

/-- Anchored match of `/<link[^>]*href=["'][^"']*FNAME["'][^>]*>/i`
(plugin.ts:843, 858): returns the total match length. Both `[^>]*` and
`[^"']*` are greedy with backtracking; the trailing `[^>]*>` is forced to
the first `>` after the closing quote. -/
def linkMatchAt (fname : Str) (l : Str) : Option Nat :=
  if ciStartsWith (str "<link") l then
    let r1 := l.drop 5
    tryFrom (fun a =>
      if ciStartsWith (str "href=") (r1.drop a) then
        match r1.drop (a + 5) with
        | q :: rest2 =>
          if q = '"' ∨ q = '\'' then
            tryFrom (fun b =>
              if ciStartsWith fname (rest2.drop b)
                  ∧ (rest2.drop (b + fname.length)).head? ∈ [some '"', some '\'']
              then
                let r3 := rest2.drop (b + fname.length + 1)
                let maxC := countWhile (fun c => c ≠ '>') r3
                match (r3.drop maxC).head? with
                | some '>' => some (5 + a + 5 + 1 + b + fname.length + 1 + maxC + 1)
                | _ => none
              else none)
              (countWhile (fun c => ¬ (c = '"' ∨ c = '\'')) rest2)
          else none
        | [] => none
      else none)
      (countWhile (fun c => c ≠ '>') r1)
  else none

/-- Anchored match of `/(src|href)=["']([^"']*FNAME)["']/i` (plugin.ts:877):
returns the length of the captured attribute name (`$1`) and the total
match length. -/
def srcHrefMatchAt (fname : Str) (l : Str) : Option (Nat × Nat) :=
  let aLen := if ciStartsWith (str "src") l then some 3
    else if ciStartsWith (str "href") l then some 4
    else none
  match aLen with
  | some aLen =>
    match l.drop aLen with
    | '=' :: q :: rest2 =>
      if q = '"' ∨ q = '\'' then
        (tryFrom (fun b =>
          if ciStartsWith fname (rest2.drop b)
              ∧ (rest2.drop (b + fname.length)).head? ∈ [some '"', some '\'']
          then some (aLen + 2 + b + fname.length + 1) else none)
          (countWhile (fun c => ¬ (c = '"' ∨ c = '\'')) rest2)).map
          (fun t => (aLen, t))
      else none
    | _ => none
  | none => none

/-- Global regex replace: scan left to right, replace each leftmost
non-overlapping match, continue after it (JS `String.replace` with the `g`
flag). Fuel is the string length; each step consumes at least one
character for the patterns used here (matches are nonempty). -/
def replaceScan (matchAt : Str → Option (Str × Nat)) : Nat → Str → Str
  | 0, l => l
  | fuel + 1, l =>
    match matchAt l with
    | some (repl, n) =>
      if n = 0 then l
      else repl ++ replaceScan matchAt fuel (l.drop n)
    | none =>
      match l with
      | [] => []
      | c :: rest => c :: replaceScan matchAt fuel rest

/-- `<style type="text/css">\n{content}\n</style>`. -/
def styleTagOf (content : Str) : Str :=
  str "<style type=\"text/css\">\n" ++ content ++ str "\n</style>"

/-- Replace every link-tag reference to `fname` by the style tag. `fname`
is inserted into the pattern through `_escapeRegex`, so it matches
literally. -/
def replaceAllLink (fname styleTag l : Str) : Str :=
  replaceScan (fun s => (linkMatchAt fname s).map (fun n => (styleTag, n))) l.length l

/-- Replace every `src`/`href` reference ending in `fname` by
`$1="dataUrl"` (the attribute name is kept as captured). -/
def replaceAllSrcHref (fname dataUrl l : Str) : Str :=
  replaceScan (fun s => (srcHrefMatchAt fname s).map
    (fun p => (s.take p.1 ++ '=' :: '"' :: dataUrl ++ ['"'], p.2))) l.length l

/-- `_inlineResources` (plugin.ts:832): inline `theme.css` (only when its
string content is truthy, i.e. nonempty — `if (themeCss && typeof themeCss
=== 'string')`), then the other stylesheet assets (string content only),
then the image assets as base64 `data:` URIs. -/
def inlineResources (html : Str) (files : AssetMap) : Str :=
  let r0 := match List.lookup (str "theme.css") files with
    | some (.text css) =>
      if css = [] then html
      else replaceAllLink (str "theme.css") (styleTagOf css) html
    | _ => html
  let r1 := files.foldl (fun acc entry =>
    match entry.2 with
    | .text content =>
      if (str ".css").isSuffixOf entry.1 ∧ entry.1 ≠ str "theme.css"
      then replaceAllLink (basename entry.1) (styleTagOf content) acc
      else acc
    | .bin _ => acc) r0
  files.foldl (fun acc entry =>
    match entry.2 with
    | .bin bytes =>
      if isImagePath entry.1
      then replaceAllSrcHref (basename entry.1)
        (str "data:" ++ getMimeType entry.1 ++ str ";base64,"
          ++ uint8ArrayToBase64 bytes) acc
      else acc
    | .text _ => acc) r1

-- ===========================================================================
-- Generic properties of `replaceScan`
-- ===========================================================================

/-- A matcher is well-formed when every match is nonempty and no longer
than its input; both matchers used by `_inlineResources` are (their match
length counts characters of the input they cover). -/
def GoodMatch (matchAt : Str → Option (Str × Nat)) : Prop :=
  ∀ l repl n, matchAt l = some (repl, n) → 1 ≤ n ∧ n ≤ l.length

theorem goodMatch_nil {matchAt : Str → Option (Str × Nat)}
    (hg : GoodMatch matchAt) : matchAt [] = none := by
  cases h : matchAt [] with
  | none => rfl
  | some p =>
    obtain ⟨repl, n⟩ := p
    obtain ⟨h1, h2⟩ := hg [] repl n h
    simp at h2
    omega

theorem replaceScan_nil (matchAt : Str → Option (Str × Nat)) (fuel : Nat)
    (h : matchAt [] = none) : replaceScan matchAt fuel [] = [] := by
  cases fuel with
  | zero => rfl
  | succ f => simp only [replaceScan, h]

theorem replaceScan_cons_none (matchAt : Str → Option (Str × Nat)) (fuel : Nat)
    (c : Char) (rest : Str) (h : matchAt (c :: rest) = none) :
    replaceScan matchAt (fuel + 1) (c :: rest) = c :: replaceScan matchAt fuel rest := by
  simp only [replaceScan, h]

theorem replaceScan_some (matchAt : Str → Option (Str × Nat)) (fuel : Nat)
    (l repl : Str) (n : Nat) (h : matchAt l = some (repl, n)) (hn : n ≠ 0) :
    replaceScan matchAt (fuel + 1) l = repl ++ replaceScan matchAt fuel (l.drop n) := by
  simp only [replaceScan, h, if_neg hn]

/-- With enough fuel the scan's value does not depend on the exact fuel. -/
theorem replaceScan_fuel {matchAt : Str → Option (Str × Nat)}
    (hg : GoodMatch matchAt) :
    ∀ fuel₁ fuel₂ l, l.length ≤ fuel₁ → l.length ≤ fuel₂ →
      replaceScan matchAt fuel₁ l = replaceScan matchAt fuel₂ l := by
  intro fuel₁
  induction fuel₁ with
  | zero =>
    intro fuel₂ l h1 _
    have hl : l = [] := by cases l with | nil => rfl | cons c t => simp at h1
    subst hl
    rw [replaceScan_nil _ _ (goodMatch_nil hg), replaceScan_nil _ _ (goodMatch_nil hg)]
  | succ f₁ ih =>
    intro fuel₂ l h1 h2
    cases l with
    | nil => rw [replaceScan_nil _ _ (goodMatch_nil hg), replaceScan_nil _ _ (goodMatch_nil hg)]
    | cons c rest =>
      cases fuel₂ with
      | zero => simp at h2
      | succ f₂ =>
        cases hm : matchAt (c :: rest) with
        | none =>
          rw [replaceScan_cons_none _ _ _ _ hm, replaceScan_cons_none _ _ _ _ hm]
          have := ih f₂ rest (by simp at h1; omega) (by simp at h2; omega)
          rw [this]
        | some p =>
          obtain ⟨repl, n⟩ := p
          obtain ⟨hn1, hn2⟩ := hg _ _ _ hm
          rw [replaceScan_some _ _ _ _ _ hm (by omega), replaceScan_some _ _ _ _ _ hm (by omega)]
          have hlen : ((c :: rest).drop n).length = (c :: rest).length - n := List.length_drop n _
          have := ih f₂ ((c :: rest).drop n)
            (by rw [hlen]; simp at h1 ⊢; omega) (by rw [hlen]; simp at h2 ⊢; omega)
          rw [this]

/-- A scan over a string none of whose suffixes match is the identity. -/
theorem replaceScan_no_match (matchAt : Str → Option (Str × Nat)) :
    ∀ (fuel : Nat) (l : Str), (∀ j, matchAt (l.drop j) = none) →
      replaceScan matchAt fuel l = l := by
  intro fuel
  induction fuel with
  | zero => intro l _; rfl
  | succ f ih =>
    intro l h
    cases l with
    | nil => exact replaceScan_nil _ _ (h 0)
    | cons c rest =>
      rw [replaceScan_cons_none _ _ _ _ (h 0), ih rest (fun j => h (j + 1))]

/-- The scan walks over a match-free prefix unchanged. -/
theorem replaceScan_walk (matchAt : Str → Option (Str × Nat)) :
    ∀ (p rest : Str) (f : Nat),
      (∀ j < p.length, matchAt ((p ++ rest).drop j) = none) →
      replaceScan matchAt (p.length + f) (p ++ rest) = p ++ replaceScan matchAt f rest := by
  intro p
  induction p with
  | nil => intro rest f _; rw [List.nil_append, List.nil_append]; rw [List.length_nil, Nat.zero_add]
  | cons c p' ih =>
    intro rest f h
    have h0 : matchAt (c :: (p' ++ rest)) = none := h 0 (by simp)
    rw [show (c :: p').length + f = (p'.length + f) + 1 by simp; omega]
    rw [show (c :: p') ++ rest = c :: (p' ++ rest) from rfl]
    rw [replaceScan_cons_none _ _ _ _ h0]
    rw [ih rest f (fun j hj => by
      have := h (j + 1) (by simp; omega)
      simpa using this)]
    rfl

-- ===========================================================================
-- Properties of the backtracking and greedy-class helpers
-- ===========================================================================

/-- Backtracking inversion: a successful `tryFrom` comes from some extent. -/
theorem tryFrom_eq_some (f : Nat → Option Nat) :
    ∀ b out, tryFrom f b = some out → ∃ j ≤ b, f j = some out := by
  intro b
  induction b with
  | zero => intro out h; exact ⟨0, Nat.le_refl 0, h⟩
  | succ b ih =>
    intro out h
    simp only [tryFrom] at h
    cases hf : f (b + 1) with
    | some v =>
      rw [hf] at h
      exact ⟨b + 1, Nat.le_refl _, by rw [hf]; exact h⟩
    | none =>
      rw [hf] at h
      obtain ⟨j, hj, hfj⟩ := ih out h
      exact ⟨j, Nat.le_succ_of_le hj, hfj⟩

/-- Backtracking resolution: when every extent above `a` fails and `a`
succeeds, the greedy search settles at `a`. -/
theorem tryFrom_eq_of (f : Nat → Option Nat) (a out : Nat) :
    ∀ b, a ≤ b → (∀ j, a < j → j ≤ b → f j = none) → f a = some out →
      tryFrom f b = some out := by
  intro b
  induction b with
  | zero =>
    intro hab _ hfa
    have : a = 0 := Nat.le_zero.mp hab
    subst this
    exact hfa
  | succ b ih =>
    intro hab hnone hfa
    simp only [tryFrom]
    by_cases hx : a = b + 1
    · subst hx; rw [hfa]; rfl
    · rw [hnone (b + 1) (by omega) (Nat.le_refl _)]
      exact ih (by omega) (fun j hj1 hj2 => hnone j hj1 (by omega)) hfa

/-- A run of satisfying characters stopped by a failing one. -/
theorem takeWhile_append_stop (p : Char → Bool) :
    ∀ (a : Str) (b : Char) (t : Str), (∀ c ∈ a, p c = true) → p b = false →
      (a ++ b :: t).takeWhile p = a := by
  intro a
  induction a with
  | nil => intro b t _ hb; simp [List.takeWhile_cons, hb]
  | cons c a' ih =>
    intro b t ha hb
    have hc : p c = true := ha c (by simp)
    simp only [List.cons_append, List.takeWhile_cons, hc, if_true]
    rw [ih b t (fun x hx => ha x (by simp [hx])) hb]

/-- The extent of the greedy `[^"']*` over `value·filename·quote·…` is the
value plus the filename. -/
theorem countWhile_value (v fname : Str) (q' : Char) (tail : Str)
    (hv : ∀ c ∈ v, ¬ (c = '"' ∨ c = '\''))
    (hf : ∀ c ∈ fname, ¬ (c = '"' ∨ c = '\''))
    (hq' : q' = '"' ∨ q' = '\'') :
    countWhile (fun c => ¬ (c = '"' ∨ c = '\'')) (v ++ fname ++ q' :: tail)
      = v.length + fname.length := by
  rw [countWhile]
  rw [takeWhile_append_stop _ (v ++ fname) q' tail
    (fun c hc => by
      rcases List.mem_append.mp hc with h | h
      · exact decide_eq_true (hv c h)
      · exact decide_eq_true (hf c h))
    (by rcases hq' with rfl | rfl <;> exact decide_eq_false (by simp))]
  exact List.length_append v fname

/-- A backtracking extent strictly inside `value·filename` cannot match the
filename: the closing quote would fall inside the matched segment. -/
theorem ci_mid_fail (fname v : Str) (q' : Char) (tail : Str) (b : Nat)
    (hq' : q' = '"' ∨ q' = '\'')
    (hl1 : '"' ∉ lower fname) (hl2 : '\'' ∉ lower fname)
    (hb1 : v.length < b) (hb2 : b ≤ v.length + fname.length) :
    ciStartsWith fname ((v ++ fname ++ q' :: tail).drop b) = false := by
  cases hcs : ciStartsWith fname ((v ++ fname ++ q' :: tail).drop b) with
  | false => rfl
  | true =>
    exfalso
    simp only [ciStartsWith, decide_eq_true_eq] at hcs
    have hidx : (((v ++ fname ++ q' :: tail).drop b).take fname.length)[v.length + fname.length - b]?
        = some q' := by
      rw [List.getElem?_take_of_lt (by omega), List.getElem?_drop]
      rw [show b + (v.length + fname.length - b) = v.length + fname.length by omega]
      rw [List.getElem?_append_right (by simp)]
      simp
    have hmem : q' ∈ ((v ++ fname ++ q' :: tail).drop b).take fname.length :=
      List.getElem?_mem hidx
    have hmem2 : Char.toLower q' ∈ lower (((v ++ fname ++ q' :: tail).drop b).take fname.length) :=
      List.mem_map_of_mem Char.toLower hmem
    rw [hcs] at hmem2
    rcases hq' with rfl | rfl
    · rw [show Char.toLower '"' = '"' from by decide] at hmem2
      exact hl1 hmem2
    · rw [show Char.toLower '\'' = '\'' from by decide] at hmem2
      exact hl2 hmem2

/-- The shared inner value scan of `srcHrefMatchAt`: greedy backtracking
settles exactly at the end of the quote-free value prefix. -/
theorem srcHref_inner (fname v s : Str) (q' : Char) (aLen : Nat)
    (hv : ∀ c ∈ v, ¬ (c = '"' ∨ c = '\''))
    (hf : ∀ c ∈ fname, ¬ (c = '"' ∨ c = '\''))
    (hq' : q' = '"' ∨ q' = '\'')
    (hl1 : '"' ∉ lower fname) (hl2 : '\'' ∉ lower fname) :
    (tryFrom (fun b =>
        if ciStartsWith fname ((v ++ fname ++ q' :: s).drop b)
            ∧ ((v ++ fname ++ q' :: s).drop (b + fname.length)).head? ∈ [some '"', some '\'']
        then some (aLen + 2 + b + fname.length + 1) else none)
        (countWhile (fun c => ¬ (c = '"' ∨ c = '\'')) (v ++ fname ++ q' :: s))).map
        (fun t => (aLen, t))
      = some (aLen, aLen + 2 + v.length + fname.length + 1) := by
  have hnone : ∀ j, v.length < j → j ≤ v.length + fname.length →
      (if ciStartsWith fname ((v ++ fname ++ q' :: s).drop j)
          ∧ ((v ++ fname ++ q' :: s).drop (j + fname.length)).head? ∈ [some '"', some '\'']
        then some (aLen + 2 + j + fname.length + 1) else (none : Option Nat)) = none := by
    intro j hj1 hj2
    refine if_neg ?_
    rintro ⟨hc1, -⟩
    rw [ci_mid_fail fname v q' s j hq' hl1 hl2 hj1 hj2] at hc1
    exact absurd hc1 (by decide)
  have hsome : (if ciStartsWith fname ((v ++ fname ++ q' :: s).drop v.length)
          ∧ ((v ++ fname ++ q' :: s).drop (v.length + fname.length)).head? ∈ [some '"', some '\'']
        then some (aLen + 2 + v.length + fname.length + 1) else (none : Option Nat))
      = some (aLen + 2 + v.length + fname.length + 1) := by
    refine if_pos ⟨?_, ?_⟩
    · show ciStartsWith fname ((v ++ fname ++ q' :: s).drop v.length) = true
      rw [show (v ++ fname ++ q' :: s).drop v.length = fname ++ q' :: s by
        rw [List.append_assoc]; exact List.drop_left' rfl]
      simp only [ciStartsWith]
      rw [List.take_left' rfl]
      exact decide_eq_true rfl
    · rw [show (v ++ fname ++ q' :: s).drop (v.length + fname.length) = q' :: s from
        List.drop_left' (by simp)]
      rcases hq' with rfl | rfl <;> simp
  rw [countWhile_value v fname q' s hv hf hq',
    tryFrom_eq_of _ v.length (aLen + 2 + v.length + fname.length + 1)
      (v.length + fname.length) (Nat.le_add_right _ _) hnone hsome]
  rfl

/-- `srcHrefMatchAt` fires on a `src`/`href` attribute whose quoted value
is a quote-free prefix followed by the filename: the match covers
`ATTR=QvFNAMEQ` and captures the attribute-name length. -/
theorem srcHrefMatchAt_fires (attr : Str) (q q' : Char) (v fname s : Str)
    (hattr : attr = str "src" ∨ attr = str "href")
    (hq : q = '"' ∨ q = '\'') (hq' : q' = '"' ∨ q' = '\'')
    (hv : ∀ c ∈ v, ¬ (c = '"' ∨ c = '\''))
    (hf : ∀ c ∈ fname, ¬ (c = '"' ∨ c = '\''))
    (hl1 : '"' ∉ lower fname) (hl2 : '\'' ∉ lower fname) :
    srcHrefMatchAt fname (attr ++ '=' :: q :: (v ++ fname ++ q' :: s))
      = some (attr.length, attr.length + 2 + v.length + fname.length + 1) := by
  rcases hattr with rfl | rfl
  · show srcHrefMatchAt fname (str "src" ++ '=' :: q :: (v ++ fname ++ q' :: s))
      = some (3, 3 + 2 + v.length + fname.length + 1)
    unfold srcHrefMatchAt
    rw [if_pos (show ciStartsWith (str "src")
      (str "src" ++ '=' :: q :: (v ++ fname ++ q' :: s)) = true from rfl)]
    simp only []
    rw [show (str "src" ++ '=' :: q :: (v ++ fname ++ q' :: s)).drop 3
        = '=' :: q :: (v ++ fname ++ q' :: s) from rfl]
    simp only []
    rw [if_pos hq]
    exact srcHref_inner fname v s q' 3 hv hf hq' hl1 hl2
  · show srcHrefMatchAt fname (str "href" ++ '=' :: q :: (v ++ fname ++ q' :: s))
      = some (4, 4 + 2 + v.length + fname.length + 1)
    unfold srcHrefMatchAt
    rw [show ciStartsWith (str "src")
      (str "href" ++ '=' :: q :: (v ++ fname ++ q' :: s)) = false from rfl]
    rw [if_neg (show ¬ (false = true) by decide)]
    rw [if_pos (show ciStartsWith (str "href")
      (str "href" ++ '=' :: q :: (v ++ fname ++ q' :: s)) = true from rfl)]
    simp only []
    rw [show (str "href" ++ '=' :: q :: (v ++ fname ++ q' :: s)).drop 4
        = '=' :: q :: (v ++ fname ++ q' :: s) from rfl]
    simp only []
    rw [if_pos hq]
    exact srcHref_inner fname v s q' 4 hv hf hq' hl1 hl2

/-- Inversion of the inner value scan shared by the two branches of
`srcHrefMatchAt`. -/
theorem srcHref_inner_inv (fname rest2 : Str) (aLen a n : Nat)
    (h : (tryFrom (fun b =>
        if ciStartsWith fname (rest2.drop b)
            ∧ (rest2.drop (b + fname.length)).head? ∈ [some '"', some '\'']
        then some (aLen + 2 + b + fname.length + 1) else none)
        (countWhile (fun c => ¬ (c = '"' ∨ c = '\'')) rest2)).map
        (fun t => (aLen, t)) = some (a, n)) :
    a = aLen ∧ ∃ j t', n = aLen + 2 + j + fname.length + 1 ∧
      lower ((rest2.drop j).take fname.length) = lower fname ∧
      ∃ q'', (q'' = '"' ∨ q'' = '\'') ∧ rest2.drop (j + fname.length) = q'' :: t' := by
  rw [Option.map_eq_some'] at h
  obtain ⟨t, ht, hpair⟩ := h
  obtain ⟨j, hj, hfj⟩ := tryFrom_eq_some _ _ _ ht
  split at hfj
  next hcond =>
    have hci := hcond.1
    have hhead := hcond.2
    simp only [ciStartsWith, decide_eq_true_eq] at hci
    simp only [List.mem_cons, List.mem_singleton, List.not_mem_nil, or_false] at hhead
    have hq'' : ∃ q'', (q'' = '"' ∨ q'' = '\'') ∧
        ∃ t', rest2.drop (j + fname.length) = q'' :: t' := by
      rcases hhead with hh | hh
      · exact ⟨'"', Or.inl rfl, List.head?_eq_some_iff.mp hh⟩
      · exact ⟨'\'', Or.inr rfl, List.head?_eq_some_iff.mp hh⟩
    obtain ⟨q'', hq2, t', ht'⟩ := hq''
    have hpa : a = aLen ∧ n = t := by
      cases hpair; exact ⟨rfl, rfl⟩
    have hnt : t = aLen + 2 + j + fname.length + 1 := by cases hfj; rfl
    exact ⟨hpa.1, j, t', by omega, hci, q'', hq2, ht'⟩
  next => exact absurd hfj (by simp)

/-- Full inversion of `srcHrefMatchAt`: the shape of a successful match. -/
theorem srcHrefMatchAt_inv (fname l : Str) (a n : Nat)
    (h : srcHrefMatchAt fname l = some (a, n)) :
    ∃ q rest2, l.drop a = '=' :: q :: rest2 ∧ (q = '"' ∨ q = '\'') ∧
      ∃ j t', n = a + 2 + j + fname.length + 1 ∧
        lower ((rest2.drop j).take fname.length) = lower fname ∧
        ∃ q'', (q'' = '"' ∨ q'' = '\'') ∧ rest2.drop (j + fname.length) = q'' :: t' := by
  unfold srcHrefMatchAt at h
  split at h
  · simp only [] at h
    split at h
    next q rest2 heq2 =>
      split at h
      next hquote =>
        obtain ⟨ha, j, t', h1, h2, h3⟩ := srcHref_inner_inv fname rest2 3 a n h
        subst ha
        exact ⟨q, rest2, heq2, hquote, j, t', h1, h2, h3⟩
      next => exact absurd h (by simp)
    next => exact absurd h (by simp)
  · split at h
    · simp only [] at h
      split at h
      next q rest2 heq2 =>
        split at h
        next hquote =>
          obtain ⟨ha, j, t', h1, h2, h3⟩ := srcHref_inner_inv fname rest2 4 a n h
          subst ha
          exact ⟨q, rest2, heq2, hquote, j, t', h1, h2, h3⟩
        next => exact absurd h (by simp)
      next => exact absurd h (by simp)
    · simp only [] at h
      exact absurd h (by simp)

/-- A `srcHrefMatchAt` match is nonempty and lies within its input. -/
theorem srcHrefMatchAt_bounds (fname l : Str) (a n : Nat)
    (h : srcHrefMatchAt fname l = some (a, n)) : 1 ≤ n ∧ n ≤ l.length := by
  obtain ⟨q, rest2, heq2, -, j, t', h1, -, q'', -, ht'⟩ := srcHrefMatchAt_inv fname l a n h
  have hld : (l.drop a).length = rest2.length + 2 := by rw [heq2]; simp
  rw [List.length_drop] at hld
  have hlt : (rest2.drop (j + fname.length)).length = t'.length + 1 := by rw [ht']; simp
  rw [List.length_drop] at hlt
  omega

/-- Only-when: every `srcHrefMatchAt` match ends with the filename
(case-insensitively) immediately before a closing quote. -/
theorem srcHrefMatchAt_ends (fname l : Str) (a n : Nat)
    (h : srcHrefMatchAt fname l = some (a, n)) :
    ∃ pre w q', l.take n = pre ++ w ++ [q'] ∧ lower w = lower fname ∧
      (q' = '"' ∨ q' = '\'') := by
  obtain ⟨q, rest2, heq2, -, j, t', h1, hci, q'', hq2, ht'⟩ := srcHrefMatchAt_inv fname l a n h
  refine ⟨l.take a ++ '=' :: q :: rest2.take j,
    (rest2.drop j).take fname.length, q'', ?_, hci, hq2⟩
  rw [h1]
  rw [show a + 2 + j + fname.length + 1 = a + (2 + (j + (fname.length + 1))) by omega]
  rw [List.take_add, heq2]
  rw [show 2 + (j + (fname.length + 1)) = (j + (fname.length + 1)) + 1 + 1 by omega]
  rw [List.take_succ_cons, List.take_succ_cons]
  rw [List.take_add]
  rw [List.take_add]
  rw [show (rest2.drop j).drop fname.length = rest2.drop (j + fname.length) by
    rw [List.drop_drop, Nat.add_comm]]
  rw [ht']
  rw [show (q'' :: t').take 1 = [q''] from rfl]
  simp [List.append_assoc]

/-- A run of satisfying characters extends through an append. -/
theorem takeWhile_append_all (p : Char → Bool) :
    ∀ (a t : Str), (∀ c ∈ a, p c = true) →
      (a ++ t).takeWhile p = a ++ t.takeWhile p := by
  intro a
  induction a with
  | nil => intro t _; simp
  | cons c a' ih =>
    intro t ha
    have hc : p c = true := ha c (by simp)
    simp only [List.cons_append, List.takeWhile_cons, hc, if_true]
    rw [ih t (fun x hx => ha x (by simp [hx]))]

/-- `linkMatchAt` fires on a `<link … href="…FNAME" …>` tag: the greedy
attribute scan settles at the `href=` (given no later case-insensitive
`href=` within the tag), the value scan at the end of the quote-free value
prefix, and the match runs to the first `>` after the closing quote. -/
theorem linkMatchAt_fires (fname m v r s : Str) (q q' : Char)
    (hm : ∀ c ∈ m, ¬ c = '>')
    (hr : ∀ c ∈ r, ¬ c = '>')
    (hq : q = '"' ∨ q = '\'') (hq' : q' = '"' ∨ q' = '\'')
    (hv : ∀ c ∈ v, ¬ (c = '"' ∨ c = '\''))
    (hf : ∀ c ∈ fname, ¬ (c = '"' ∨ c = '\''))
    (hl1 : '"' ∉ lower fname) (hl2 : '\'' ∉ lower fname)
    (hnoHref : ∀ a,
      a ≤ (m ++ str "href=" ++ q :: (v ++ fname ++ q' :: (r ++ '>' :: s))).length →
      m.length < a →
      ciStartsWith (str "href=")
        ((m ++ str "href=" ++ q :: (v ++ fname ++ q' :: (r ++ '>' :: s))).drop a) = false) :
    linkMatchAt fname
        (str "<link" ++ (m ++ str "href=" ++ q :: (v ++ fname ++ q' :: (r ++ '>' :: s))))
      = some (5 + m.length + 5 + 1 + v.length + fname.length + 1 + r.length + 1) := by
  unfold linkMatchAt
  rw [if_pos (show ciStartsWith (str "<link")
      (str "<link" ++ (m ++ str "href=" ++ q :: (v ++ fname ++ q' :: (r ++ '>' :: s)))) = true by
    simp only [ciStartsWith]
    rw [List.take_left' rfl]
    exact decide_eq_true rfl)]
  simp only []
  rw [show (str "<link" ++ (m ++ str "href=" ++ q :: (v ++ fname ++ q' :: (r ++ '>' :: s)))).drop 5
      = m ++ str "href=" ++ q :: (v ++ fname ++ q' :: (r ++ '>' :: s)) from List.drop_left' rfl]
  refine tryFrom_eq_of _ m.length _ _ ?_ ?_ ?_
  · rw [countWhile, show m ++ str "href=" ++ q :: (v ++ fname ++ q' :: (r ++ '>' :: s))
        = m ++ (str "href=" ++ q :: (v ++ fname ++ q' :: (r ++ '>' :: s))) by simp,
      takeWhile_append_all _ m _ (fun c hc => decide_eq_true (hm c hc))]
    simp
  · intro j hj1 hj2
    have hjX : j ≤ (m ++ str "href=" ++ q :: (v ++ fname ++ q' :: (r ++ '>' :: s))).length :=
      le_trans hj2 (by rw [countWhile]; exact (List.takeWhile_sublist _).length_le)
    rw [hnoHref j hjX hj1]
    rw [if_neg (show ¬ (false = true) by decide)]
  · rw [show (m ++ str "href=" ++ q :: (v ++ fname ++ q' :: (r ++ '>' :: s))).drop m.length
        = str "href=" ++ q :: (v ++ fname ++ q' :: (r ++ '>' :: s)) by
      rw [show m ++ str "href=" ++ q :: (v ++ fname ++ q' :: (r ++ '>' :: s))
          = m ++ (str "href=" ++ q :: (v ++ fname ++ q' :: (r ++ '>' :: s))) by simp]
      exact List.drop_left' rfl]
    rw [if_pos (show ciStartsWith (str "href=")
        (str "href=" ++ q :: (v ++ fname ++ q' :: (r ++ '>' :: s))) = true by
      simp only [ciStartsWith]
      rw [List.take_left' rfl]
      exact decide_eq_true rfl)]
    rw [show (m ++ str "href=" ++ q :: (v ++ fname ++ q' :: (r ++ '>' :: s))).drop (m.length + 5)
        = q :: (v ++ fname ++ q' :: (r ++ '>' :: s)) by
      rw [show m ++ str "href=" ++ q :: (v ++ fname ++ q' :: (r ++ '>' :: s))
          = (m ++ str "href=") ++ q :: (v ++ fname ++ q' :: (r ++ '>' :: s)) by simp]
      exact List.drop_left' (by rw [List.length_append]; rfl)]
    simp only []
    rw [if_pos hq]
    rw [countWhile_value v fname q' (r ++ '>' :: s) hv hf hq']
    refine tryFrom_eq_of _ v.length _ _ (Nat.le_add_right _ _) ?_ ?_
    · intro j hj1 hj2
      refine if_neg ?_
      rintro ⟨hc1, -⟩
      rw [ci_mid_fail fname v q' (r ++ '>' :: s) j hq' hl1 hl2 hj1 hj2] at hc1
      exact absurd hc1 (by decide)
    · have c1 : ciStartsWith fname ((v ++ fname ++ q' :: (r ++ '>' :: s)).drop v.length) = true := by
        rw [show (v ++ fname ++ q' :: (r ++ '>' :: s)).drop v.length
            = fname ++ q' :: (r ++ '>' :: s) by
          rw [List.append_assoc]; exact List.drop_left' rfl]
        simp only [ciStartsWith]
        rw [List.take_left' rfl]
        exact decide_eq_true rfl
      have c2 : ((v ++ fname ++ q' :: (r ++ '>' :: s)).drop (v.length + fname.length)).head?
          ∈ [some '"', some '\''] := by
        rw [show (v ++ fname ++ q' :: (r ++ '>' :: s)).drop (v.length + fname.length)
            = q' :: (r ++ '>' :: s) from List.drop_left' (by simp)]
        rcases hq' with rfl | rfl <;> simp
      rw [if_pos ⟨c1, c2⟩]
      rw [show (v ++ fname ++ q' :: (r ++ '>' :: s)).drop (v.length + fname.length + 1)
          = r ++ '>' :: s by
        rw [show v ++ fname ++ q' :: (r ++ '>' :: s)
            = ((v ++ fname) ++ [q']) ++ (r ++ '>' :: s) by simp]
        exact List.drop_left' (by rw [List.length_append, List.length_append]; rfl)]
      rw [show countWhile (fun c => c ≠ '>') (r ++ '>' :: s) = r.length by
        rw [countWhile, takeWhile_append_stop _ r '>' s
          (fun c hc => decide_eq_true (hr c hc))
          (decide_eq_false (not_not_intro rfl))]]
      rw [show (r ++ '>' :: s).drop r.length = '>' :: s from List.drop_left' rfl]
      rw [show (('>' :: s) : Str).head? = some '>' from rfl]
      simp only []

/-- A `linkMatchAt` match is nonempty and lies within its input. -/
theorem linkMatchAt_bounds (fname l : Str) (n : Nat)
    (h : linkMatchAt fname l = some n) : 1 ≤ n ∧ n ≤ l.length := by
  unfold linkMatchAt at h
  split at h
  next hlink =>
    simp only [] at h
    have h5 : 5 ≤ l.length := by
      simp only [ciStartsWith, decide_eq_true_eq] at hlink
      have hlen := congrArg List.length hlink
      simp only [lower, List.length_map, List.length_take] at hlen
      rw [show (str "<link").length = 5 from rfl] at hlen
      omega
    obtain ⟨a, ha, hfa⟩ := tryFrom_eq_some _ _ _ h
    split at hfa
    next hhref =>
      split at hfa
      next q rest2 heq2 =>
        have hr1 : l.length - 5 - (a + 5) = rest2.length + 1 := by
          have := congrArg List.length heq2
          simp only [List.length_drop, List.length_cons] at this
          omega
        split at hfa
        next hquote =>
          obtain ⟨b, hb, hfb⟩ := tryFrom_eq_some _ _ _ hfa
          split at hfb
          next hcond =>
            have hne2 : rest2.drop (b + fname.length) ≠ [] := by
              intro he
              have hc2 := hcond.2
              rw [he] at hc2
              simp at hc2
            have hlen2 : b + fname.length < rest2.length := by
              by_contra hcon
              exact hne2 (List.drop_eq_nil_of_le (by omega))
            split at hfb
            next hgt =>
              have hne3 : ((rest2.drop (b + fname.length + 1)).drop
                  (countWhile (fun c => c ≠ '>') (rest2.drop (b + fname.length + 1)))) ≠ [] := by
                intro he
                rw [he] at hgt
                simp at hgt
              have hlen3 : countWhile (fun c => c ≠ '>') (rest2.drop (b + fname.length + 1))
                  < (rest2.drop (b + fname.length + 1)).length := by
                by_contra hcon
                exact hne3 (List.drop_eq_nil_of_le (by omega))
              rw [List.length_drop] at hlen3
              cases hfb
              omega
            next => exact absurd hfb (by simp)
          next => exact absurd hfb (by simp)
        next => exact absurd hfa (by simp)
      next => exact absurd hfa (by simp)
    next => exact absurd hfa (by simp)
  next => exact absurd h (by simp)

/-- The composed matcher of `replaceAllSrcHref` is well-formed. -/
theorem srcMatcher_good (fname dataUrl : Str) :
    GoodMatch (fun s => (srcHrefMatchAt fname s).map
      (fun p => (s.take p.1 ++ '=' :: '"' :: dataUrl ++ ['"'], p.2))) := by
  intro l repl n h
  rw [Option.map_eq_some'] at h
  obtain ⟨⟨a, t⟩, ht, hp⟩ := h
  simp only [Prod.mk.injEq] at hp
  obtain ⟨-, rfl⟩ := hp
  exact srcHrefMatchAt_bounds fname l a t ht

/-- The composed matcher of `replaceAllLink` is well-formed. -/
theorem linkMatcher_good (fname styleTag : Str) :
    GoodMatch (fun s => (linkMatchAt fname s).map (fun n => (styleTag, n))) := by
  intro l repl n h
  rw [Option.map_eq_some'] at h
  obtain ⟨t, ht, hp⟩ := h
  simp only [Prod.mk.injEq] at hp
  obtain ⟨-, rfl⟩ := hp
  exact linkMatchAt_bounds fname l t ht

/-- Scan decomposition for `replaceAllSrcHref`: a match-free prefix, a
match covering `core`, then the scan of the remainder. -/
theorem replaceAllSrcHref_decomp (fname dataUrl p core s : Str) (aLen : Nat)
    (hmatch : srcHrefMatchAt fname (core ++ s) = some (aLen, core.length))
    (hcore : core ≠ [])
    (hpre : ∀ j < p.length, srcHrefMatchAt fname ((p ++ core ++ s).drop j) = none) :
    replaceAllSrcHref fname dataUrl (p ++ core ++ s)
      = p ++ ((core ++ s).take aLen ++ '=' :: '"' :: dataUrl ++ ['"'])
          ++ replaceAllSrcHref fname dataUrl s := by
  have hclen : 0 < core.length := List.length_pos.mpr hcore
  unfold replaceAllSrcHref
  rw [show p ++ core ++ s = p ++ (core ++ s) from List.append_assoc p core s]
  rw [show (p ++ (core ++ s)).length = p.length + (core ++ s).length from by simp]
  rw [replaceScan_walk _ p (core ++ s) (core ++ s).length
    (fun j hj => by
      have := hpre j hj
      rw [List.append_assoc] at this
      show ((srcHrefMatchAt fname ((p ++ (core ++ s)).drop j)).map _) = none
      rw [this]
      rfl)]
  rw [show (core ++ s).length = (core.length - 1 + s.length) + 1 from by simp; omega]
  rw [replaceScan_some _ _ _ _ core.length
    (by
      show ((srcHrefMatchAt fname (core ++ s)).map _) = _
      rw [hmatch]
      rfl)
    (by omega)]
  rw [List.drop_left' rfl]
  rw [replaceScan_fuel (srcMatcher_good fname dataUrl) (core.length - 1 + s.length) s.length s
    (by omega) (Nat.le_refl _)]
  simp [List.append_assoc]

/-- Scan decomposition for `replaceAllLink`. -/
theorem replaceAllLink_decomp (fname styleTag p core s : Str)
    (hmatch : linkMatchAt fname (core ++ s) = some core.length)
    (hcore : core ≠ [])
    (hpre : ∀ j < p.length, linkMatchAt fname ((p ++ core ++ s).drop j) = none) :
    replaceAllLink fname styleTag (p ++ core ++ s)
      = p ++ styleTag ++ replaceAllLink fname styleTag s := by
  have hclen : 0 < core.length := List.length_pos.mpr hcore
  unfold replaceAllLink
  rw [show p ++ core ++ s = p ++ (core ++ s) from List.append_assoc p core s]
  rw [show (p ++ (core ++ s)).length = p.length + (core ++ s).length from by simp]
  rw [replaceScan_walk _ p (core ++ s) (core ++ s).length
    (fun j hj => by
      have := hpre j hj
      rw [List.append_assoc] at this
      show ((linkMatchAt fname ((p ++ (core ++ s)).drop j)).map _) = none
      rw [this]
      rfl)]
  rw [show (core ++ s).length = (core.length - 1 + s.length) + 1 from by simp; omega]
  rw [replaceScan_some _ _ _ _ core.length
    (by
      show ((linkMatchAt fname (core ++ s)).map _) = _
      rw [hmatch]
      rfl)
    (by omega)]
  rw [List.drop_left' rfl]
  rw [replaceScan_fuel (linkMatcher_good fname styleTag) (core.length - 1 + s.length) s.length s
    (by omega) (Nat.le_refl _)]
  simp [List.append_assoc]

/-- The identity case: no suffix of the document matches. -/
theorem replaceAllSrcHref_id (fname dataUrl html : Str)
    (h : ∀ j < html.length, srcHrefMatchAt fname (html.drop j) = none) :
    replaceAllSrcHref fname dataUrl html = html := by
  unfold replaceAllSrcHref
  refine replaceScan_no_match _ _ _ (fun j => ?_)
  by_cases hj : j < html.length
  · show ((srcHrefMatchAt fname (html.drop j)).map _) = none
    rw [h j hj]
    rfl
  · show ((srcHrefMatchAt fname (html.drop j)).map _) = none
    rw [List.drop_eq_nil_of_le (by omega)]
    rfl

/-- `_inlineResources` on a single binary asset is exactly the image pass. -/
theorem inlineResources_single_bin (path : Str) (bytes : List Byte) (html : Str) :
    inlineResources html [(path, AssetContent.bin bytes)]
      = if isImagePath path
        then replaceAllSrcHref (basename path)
          (str "data:" ++ getMimeType path ++ str ";base64," ++ uint8ArrayToBase64 bytes) html
        else html := by
  unfold inlineResources
  simp only []
  cases hlk : List.lookup (str "theme.css") [(path, AssetContent.bin bytes)] with
  | none => rfl
  | some c =>
    have hc : c = AssetContent.bin bytes := by
      simp only [List.lookup] at hlk
      split at hlk
      next => exact (Option.some.inj hlk).symm
      next => exact absurd hlk (by simp)
    subst hc
    rfl

/-- No suffix matches: a single image asset leaves the document unchanged
(and a non-image binary asset never touches it). -/
theorem inlineResources_single_bin_id (path : Str) (bytes : List Byte) (html : Str)
    (h : ∀ j < html.length, srcHrefMatchAt (basename path) (html.drop j) = none) :
    inlineResources html [(path, AssetContent.bin bytes)] = html := by
  rw [inlineResources_single_bin]
  split
  · exact replaceAllSrcHref_id _ _ _ h
  · rfl

/-- `_inlineResources` on a nonempty `theme.css` asset is exactly the
theme pass. -/
theorem inlineResources_single_theme (css html : Str) (hcss : css ≠ []) :
    inlineResources html [(str "theme.css", AssetContent.text css)]
      = replaceAllLink (str "theme.css") (styleTagOf css) html := by
  unfold inlineResources
  simp only []
  rw [show List.lookup (str "theme.css") [(str "theme.css", AssetContent.text css)]
      = some (AssetContent.text css) from rfl]
  simp only []
  rw [if_neg hcss]
  simp only [List.foldl]
  rw [if_neg (fun hcon => hcon.2 rfl)]

-- ===========================================================================
-- Claim C5 — resource inlining
-- ===========================================================================

/-- The canonical document of C5: one stylesheet link, one image. -/
def docGood : Str := str "<html><head><link rel=\"stylesheet\" href=\"theme.css\"></head><body><img src=\"cat.png\"></body></html>"

/-- A document whose `src` value contains — but does not end with — the
image asset's bare filename. -/
def docBad : Str := str "<img src=\"cat.png.bak\">"

/-- Stylesheet content used by the C5 instances. -/
def cssDemo : Str := str "body color red"

/-- Everything before the base64 payload in the inlined canonical
document. -/
def c5P1 : Str := str "<html><head><style type=\"text/css\">\nbody color red\n</style></head><body><img src=\"data:image/png;base64,"

/-- Everything after the base64 payload. -/
def c5P2 : Str := str "\"></body></html>"

/-- C5 (counterexample): the claim "the output contains no remaining
src/href attribute value containing an image asset's bare filename" is
false: the replacement only fires when the quoted value ends with the
filename, so `src="cat.png.bak"` — whose value contains `cat.png` — is
left unchanged. -/
theorem c5_counterexample :
    inlineResources docBad [(str "cat.png", AssetContent.bin [(137 : Byte)])] = docBad ∧
      docBad = str "<img " ++ str "src=\"" ++ str "cat.png.bak" ++ str "\">" ∧
      str "cat.png" <:+: str "cat.png.bak" ∧
      isImagePath (str "cat.png") = true := by
  refine ⟨by decide, by decide, by decide, by decide⟩

/-- C5 (amended): resource inlining replaces a `src`/`href` reference
exactly when the quoted attribute value ends with the image asset's bare
filename. (1) For every document decomposing as a match-free prefix, a
`src`/`href` attribute whose quote-free value ends with the filename, and
a remainder, the reference becomes a `data:` URI (attribute name kept)
and the remainder is scanned on. (2) Only-when: every match of the
source's pattern ends with the filename (case-insensitively) immediately
before a closing quote, so a value merely containing the filename is never
replaced. (3) A document none of whose suffixes match is left unchanged.
(4) A `<link … href="…theme.css" …>` tag becomes the inline style block
of a nonempty `theme.css` asset. (5) Every data-URI payload decodes back
to the original bytes. (6) The canonical document is rewritten end to end,
and `src="cat.png.bak"` — containing but not ending with `cat.png` — is
left unchanged. -/
theorem c5_inlining_amended :
    (∀ (path : Str) (bytes : List Byte) (attr p v s : Str) (q q' : Char),
      isImagePath path = true →
      (attr = str "src" ∨ attr = str "href") →
      (q = '"' ∨ q = '\'') → (q' = '"' ∨ q' = '\'') →
      (∀ c ∈ v, ¬ (c = '"' ∨ c = '\'')) →
      (∀ c ∈ basename path, ¬ (c = '"' ∨ c = '\'')) →
      '"' ∉ lower (basename path) → '\'' ∉ lower (basename path) →
      (∀ j < p.length,
        srcHrefMatchAt (basename path)
          ((p ++ (attr ++ '=' :: q :: (v ++ basename path ++ [q'])) ++ s).drop j) = none) →
      inlineResources (p ++ (attr ++ '=' :: q :: (v ++ basename path ++ [q'])) ++ s)
          [(path, AssetContent.bin bytes)]
        = p ++ (attr ++ '=' :: '"' ::
              (str "data:" ++ getMimeType path ++ str ";base64," ++ uint8ArrayToBase64 bytes)
              ++ ['"'])
            ++ replaceAllSrcHref (basename path)
                (str "data:" ++ getMimeType path ++ str ";base64," ++ uint8ArrayToBase64 bytes)
                s) ∧
    (∀ (fname l : Str) (a n : Nat), srcHrefMatchAt fname l = some (a, n) →
      ∃ pre w q', l.take n = pre ++ w ++ [q'] ∧ lower w = lower fname ∧
        (q' = '"' ∨ q' = '\'')) ∧
    (∀ (path : Str) (bytes : List Byte) (html : Str),
      (∀ j < html.length, srcHrefMatchAt (basename path) (html.drop j) = none) →
      inlineResources html [(path, AssetContent.bin bytes)] = html) ∧
    (∀ (css p m v r s : Str) (q q' : Char),
      css ≠ [] →
      (∀ c ∈ m, ¬ c = '>') → (∀ c ∈ r, ¬ c = '>') →
      (q = '"' ∨ q = '\'') → (q' = '"' ∨ q' = '\'') →
      (∀ c ∈ v, ¬ (c = '"' ∨ c = '\'')) →
      (∀ a, a ≤ (m ++ str "href=" ++ q :: (v ++ str "theme.css" ++ q' :: (r ++ '>' :: s))).length →
        m.length < a →
        ciStartsWith (str "href=")
          ((m ++ str "href=" ++ q :: (v ++ str "theme.css" ++ q' :: (r ++ '>' :: s))).drop a)
          = false) →
      (∀ j < p.length,
        linkMatchAt (str "theme.css")
          ((p ++ (str "<link" ++ (m ++ str "href=" ++ q :: (v ++ str "theme.css" ++ q' :: (r ++ ['>'])))) ++ s).drop j)
          = none) →
      inlineResources
          (p ++ (str "<link" ++ (m ++ str "href=" ++ q :: (v ++ str "theme.css" ++ q' :: (r ++ ['>'])))) ++ s)
          [(str "theme.css", AssetContent.text css)]
        = p ++ styleTagOf css ++ replaceAllLink (str "theme.css") (styleTagOf css) s) ∧
    (∀ bytes : List Byte, decodeBase64 (uint8ArrayToBase64 bytes) = some bytes) ∧
    (∀ bytes : List Byte,
      inlineResources docGood
          [(str "theme.css", AssetContent.text cssDemo), (str "cat.png", AssetContent.bin bytes)]
        = c5P1 ++ uint8ArrayToBase64 bytes ++ c5P2 ∧
      inlineResources docBad
          [(str "theme.css", AssetContent.text cssDemo), (str "cat.png", AssetContent.bin bytes)]
        = docBad) := by
  refine ⟨?_, srcHrefMatchAt_ends, inlineResources_single_bin_id, ?_, decode_uint8ArrayToBase64, ?_⟩
  · intro path bytes attr p v s q q' him hattr hq hq' hv hf hl1 hl2 hpre
    rw [inlineResources_single_bin, if_pos him]
    rw [replaceAllSrcHref_decomp (basename path) _ p
      (attr ++ '=' :: q :: (v ++ basename path ++ [q'])) s attr.length
      (by
        rw [show (attr ++ '=' :: q :: (v ++ basename path ++ [q'])) ++ s
            = attr ++ '=' :: q :: (v ++ basename path ++ q' :: s) by simp]
        rw [srcHrefMatchAt_fires attr q q' v (basename path) s hattr hq hq' hv hf hl1 hl2]
        simp only [Option.some.injEq, Prod.mk.injEq, true_and]
        simp
        omega)
      (by simp)
      hpre]
    rw [show (attr ++ '=' :: q :: (v ++ basename path ++ [q'])) ++ s
        = attr ++ ('=' :: q :: (v ++ basename path ++ q' :: s)) by simp]
    rw [List.take_left' rfl]
  · intro css p m v r s q q' hcss hm hr hq hq' hv hnoHref hpre
    rw [inlineResources_single_theme css _ hcss]
    rw [replaceAllLink_decomp (str "theme.css") (styleTagOf css) p
      (str "<link" ++ (m ++ str "href=" ++ q :: (v ++ str "theme.css" ++ q' :: (r ++ ['>'])))) s
      (by
        rw [show (str "<link" ++ (m ++ str "href=" ++ q :: (v ++ str "theme.css" ++ q' :: (r ++ ['>'])))) ++ s
            = str "<link" ++ (m ++ str "href=" ++ q :: (v ++ str "theme.css" ++ q' :: (r ++ '>' :: s))) by
          simp]
        rw [linkMatchAt_fires (str "theme.css") m v r s q q' hm hr hq hq'
          hv (by decide) (by decide) (by decide) hnoHref]
        simp only [Option.some.injEq]
        simp only [List.length_append, List.length_cons]
        rw [show (str "<link").length = 5 from rfl, show (str "href=").length = 5 from rfl,
          show (str "theme.css").length = 9 from rfl]
        simp
        omega)
      (by simp)
      hpre]
  · intro bytes
    refine ⟨?_, by rfl⟩
    have h : inlineResources docGood
        [(str "theme.css", AssetContent.text cssDemo), (str "cat.png", AssetContent.bin bytes)]
        = c5P1 ++ ((uint8ArrayToBase64 bytes ++ str "\"") ++ str "></body></html>") := by
      rfl
    rw [h, List.append_assoc (uint8ArrayToBase64 bytes) (str "\"") (str "></body></html>")]
    rw [show str "\"" ++ str "></body></html>" = c5P2 from rfl]
    exact (List.append_assoc c5P1 (uint8ArrayToBase64 bytes) c5P2).symm

/-- C5 witness: the amended theorem applied at concrete inputs — a `src`
reference whose value ends with `cat.png` is inlined; the match of
`src="xcat.png"` ends with the filename before the closing quote;
`src="cat.png.bak"` is left unchanged; a `theme.css` link tag becomes the
style block. -/
theorem c5_inlining_amended_witness :
    (inlineResources
        (str "<p>" ++ (str "src" ++ '=' :: '"' :: (str "img/" ++ basename (str "cat.png") ++ ['"'])) ++ str "<hr>")
        [(str "cat.png", AssetContent.bin [(137 : Byte)])]
      = str "<p>" ++ (str "src" ++ '=' :: '"' ::
            (str "data:" ++ getMimeType (str "cat.png") ++ str ";base64,"
              ++ uint8ArrayToBase64 [(137 : Byte)])
            ++ ['"'])
          ++ replaceAllSrcHref (basename (str "cat.png"))
              (str "data:" ++ getMimeType (str "cat.png") ++ str ";base64,"
                ++ uint8ArrayToBase64 [(137 : Byte)])
              (str "<hr>")) ∧
    (∃ pre w q', (str "src=\"xcat.png\"").take 14 = pre ++ w ++ [q'] ∧
      lower w = lower (str "cat.png") ∧ (q' = '"' ∨ q' = '\'')) ∧
    (inlineResources docBad [(str "cat.png", AssetContent.bin [(137 : Byte)])] = docBad) ∧
    (inlineResources
        (str "A" ++ (str "<link" ++ (str " " ++ str "href="
            ++ '"' :: (([] : Str) ++ str "theme.css" ++ '"' :: (([] : Str) ++ ['>'])))) ++ str "B")
        [(str "theme.css", AssetContent.text (str "x"))]
      = str "A" ++ styleTagOf (str "x")
          ++ replaceAllLink (str "theme.css") (styleTagOf (str "x")) (str "B")) :=
  ⟨c5_inlining_amended.1 (str "cat.png") [(137 : Byte)] (str "src") (str "<p>")
      (str "img/") (str "<hr>") '"' '"'
      (by decide) (Or.inl rfl) (Or.inl rfl) (Or.inl rfl)
      (by decide) (by decide) (by decide) (by decide) (by decide),
    c5_inlining_amended.2.1 (str "cat.png") (str "src=\"xcat.png\"") 3 14 (by decide),
    c5_inlining_amended.2.2.1 (str "cat.png") [(137 : Byte)] docBad (by decide),
    c5_inlining_amended.2.2.2.1 (str "x") (str "A") (str " ") [] [] (str "B") '"' '"'
      (by decide) (by decide) (by decide) (Or.inl rfl) (Or.inl rfl)
      (by decide) (by decide) (by decide)⟩

-- ===========================================================================
-- Error codes, progress events, results (types.ts / spec §6)
-- ===========================================================================

/-- Modelled from the spec: the `PDFErrorCode` enumeration lives in
`types.ts`, which is not among the sources; the spec fixes a closed
enumeration of nine codes, each naming a specific failure site. `convert`
uses the members named `INVALID_PAGE_SIZE` and `PDF_GENERATION_FAILED`. -/
inductive PDFErrorCode
  | backendCapabilityUnavailable
  | sessionLaunchFailed
  | documentLoadTimeout
  | pdfGenerationFailed
  | fileWriteFailed
  | invalidPageSize
  | invalidMargin
  | coverGenerationFailed
  | tocGenerationFailed
deriving DecidableEq

/-- Code attached to a failed result: one of the plugin's own codes, or an
error forwarded verbatim from the HTML plugin (opaque code string; the
fallback code is `CONV-HTML-002`). -/
inductive ConvErrorCode
  | pdf (c : PDFErrorCode)
  | htmlForwarded (code : Str)
deriving DecidableEq

/-- The `error` field of a failed result (diagnostic message and cause
elided; the code is what the claims inspect). -/
structure ConversionError where
  code : ConvErrorCode
deriving DecidableEq

/-- `PDFConversionStatus` (types.ts). -/
inductive PDFConversionStatus
  | convertingHtml
  | generatingCover
  | generatingToc
  | generatingPdf
  | completed
  | failed
deriving DecidableEq

/-- One `PDFProgressInfo` delivered to `onProgress` (the `taskId`, shared
by all events of one call, is elided). -/
structure PEvent where
  status : PDFConversionStatus
  percent : Nat
  currentStep : Option String := none
deriving DecidableEq

/-- `PDFConversionResult` (types.ts). -/
structure PDFConversionResult where
  success : Bool
  taskId : String
  outputPath : Option Str := none
  data : Option (List Byte) := none
  pageCount : Option Nat := none
  error : Option ConversionError := none
  duration : Nat := 0
deriving DecidableEq

-- ===========================================================================
-- Environments: the effectful collaborators of `convert`
-- ===========================================================================

/-- Outcomes of the Puppeteer session, treated as an oracle: whether the
dynamic import, browser launch (with `newPage`), `setContent` (within its
timeout) and `page.pdf` succeed, the produced bytes, and the page height
measured by `_estimatePageCount`'s `page.evaluate`. -/
structure RenderEnv where
  puppeteerOk : Bool
  launchOk : Bool
  loadOk : Bool
  printOk : Bool
  pdfBytes : List Byte
  pageHeight : Nat

/-- Outcome of `CardtoHTMLPlugin.convert`: failure (with the forwarded
error code when present) or the emitted asset map. -/
inductive HtmlOutcome
  | failure (err : Option Str)
  | ok (files : AssetMap)

/-- Environment of one `convert` call: the generated task id, the clock,
the collaborators' outcomes, and whether the output file write succeeds. -/
structure ConvEnv where
  uuid : String
  nowISO : Str
  date : DateEnv
  html : HtmlOutcome
  render : RenderEnv
  writeOk : Bool
  elapsed : Nat

-- ===========================================================================
-- `_extractMetadata` (plugin.ts:435)
-- ===========================================================================

/-- Anchored match of `/<title>([^<]*)<\/title>/i`: the capture. -/
def titleCaptureAt (l : Str) : Option Str :=
  if ciStartsWith (str "<title>") l then
    let rest := l.drop 7
    match rest.findIdx? (· = '<') with
    | some t =>
      if ciStartsWith (str "</title>") (rest.drop t) then some (rest.take t) else none
    | none => none
  else none

/-- First match of the title regex in the document. -/
def firstTitleCapture : Nat → Str → Option Str
  | 0, _ => none
  | fuel + 1, l =>
    match titleCaptureAt l with
    | some t => some t
    | none =>
      match l with
      | [] => none
      | _ :: rest => firstTitleCapture fuel rest

/-- `_extractMetadata`: title from `index.html`'s title element, fresh
timestamps and identifier, fixed versions. -/
def extractMetadata (env : ConvEnv) (files : AssetMap) : CardMetadata :=
  let base : CardMetadata :=
    { name := some (str "未命名卡片")
      createdAt := some env.nowISO
      modifiedAt := some env.nowISO
      version := some (str "1.0.0")
      chipsStandardsVersion := some (str "1.0.0")
      id := some (env.uuid.data.take 10) }
  match List.lookup (str "index.html") files with
  | some (.text indexHtml) =>
    { base with
      name := some ((firstTitleCapture indexHtml.length indexHtml).getD (str "未命名卡片")) }
  | _ => base

-- ===========================================================================
-- `_addPrintStyles` (plugin.ts:779)
-- ===========================================================================

/-- JS `s.replace(pat, repl)` with a plain string pattern: first
occurrence only. -/
def replaceFirstLit (pat repl l : Str) : Str :=
  match firstIdx pat l with
  | some i => l.take i ++ repl ++ l.drop (i + pat.length)
  | none => l

/-- Interpolation text of a `PageSize` value. -/
def pageSizeName : PageSize → String
  | .A4 => "A4"
  | .A3 => "A3"
  | .Letter => "Letter"
  | .Legal => "Legal"
  | .Tabloid => "Tabloid"
  | .custom => "custom"

/-- Interpolation text of a `PageOrientation` value. -/
def orientationName : PageOrientation → String
  | .portrait => "portrait"
  | .landscape => "landscape"

/-- The print-media style block (plugin.ts:780): `@page` size/orientation
and margins, color adjustment, forced page breaks after cover and TOC.
JS interpolation of an `undefined` field prints the text `undefined`. -/
def printStylesOf (options : PDFConversionOptions) : Str :=
  str "\n      <style type=\"text/css\" media=\"print\">\n        @page \x7b\n          size: "
    ++ (if options.pageSize = some PageSize.custom
        then options.width.getD (str "undefined") ++ ' '
          :: options.height.getD (str "undefined")
        else str ((options.pageSize.map pageSizeName).getD "undefined"))
    ++ ' ' :: str ((options.orientation.map orientationName).getD "undefined")
    ++ str ";\n          margin: "
    ++ (options.margin.bind PageMargin.top).getD (str "20mm") ++ ' '
    :: (options.margin.bind PageMargin.right).getD (str "20mm") ++ ' '
    :: (options.margin.bind PageMargin.bottom).getD (str "20mm") ++ ' '
    :: (options.margin.bind PageMargin.left).getD (str "20mm")
    ++ str ";\n        \x7d\n        body \x7b\n          -webkit-print-color-adjust: exact !important;\n          print-color-adjust: exact !important;\n        \x7d\n        .chips-pdf-cover \x7b\n          page-break-after: always;\n        \x7d\n        .chips-pdf-toc \x7b\n          page-break-after: always;\n        \x7d\n      </style>\n    "

/-- `_addPrintStyles`: splice the print styles before `</head>`. -/
def addPrintStyles (html : Str) (options : PDFConversionOptions) : Str :=
  replaceFirstLit (str "</head>") (printStylesOf options ++ str "\n</head>") html

-- ===========================================================================
-- `_generatePDF` and `convert` (plugin.ts:472, 205)
-- ===========================================================================

/-- `DEFAULT_COVER_CONFIG` (plugin.ts:86). -/
def defaultCoverConfig : CoverConfig :=
  { enabled := some true, showAuthor := some true, showDate := some true,
    showVersion := some false }

/-- `DEFAULT_TOC_CONFIG` (plugin.ts:97). -/
def defaultTOCConfig : TOCConfig :=
  { enabled := some false, title := some (str "目录"), maxDepth := some 3,
    showPageNumbers := some true }

/-- `_estimatePageCount` (plugin.ts:807): `max(1, ceil(pageHeight/1000))`. -/
def estimatePageCount (pageHeight : Nat) : Nat := max 1 ((pageHeight + 999) / 1000)

/-- The progress events `convert`/`_generatePDF` emit, in source order. -/
def evConvertingHtml : PEvent := ⟨.convertingHtml, 0, some "正在解析卡片并生成 HTML"⟩

def evHtmlFailed : PEvent := ⟨.failed, 0, some "HTML 转换失败"⟩

def evGeneratingPdf30 : PEvent := ⟨.generatingPdf, 30, some "HTML 生成完成，准备生成 PDF"⟩

def evGeneratingCover : PEvent := ⟨.generatingCover, 40, some "正在生成封面"⟩

def evGeneratingToc : PEvent := ⟨.generatingToc, 50, some "正在生成目录"⟩

def evRendering60 : PEvent := ⟨.generatingPdf, 60, some "正在渲染页面"⟩

def evGeneratingPdf80 : PEvent := ⟨.generatingPdf, 80, some "正在生成 PDF"⟩

def evCompletedSaved : PEvent := ⟨.completed, 100, some "PDF 已保存到文件"⟩

def evCompleted : PEvent := ⟨.completed, 100, some "转换完成"⟩

def evCatchFailed : PEvent := ⟨.failed, 0, some "转换过程发生错误"⟩

/-- `_generatePDF`: the events it reports and `some (bytes, pageCount)` on
success, `none` when a step throws (missing puppeteer, missing or binary
`index.html`, launch failure, load timeout, print failure). The document
pipeline — inline resources, optional cover, optional TOC (generated from
the cover-augmented document), print styles — is computed exactly as in
the source and handed to the backend, whose outcomes the environment
prescribes. -/
def generatePDF (renv : RenderEnv) (denv : DateEnv) (files : AssetMap)
    (options : PDFConversionOptions) (metadata : CardMetadata) :
    List PEvent × Option (List Byte × Nat) :=
  if renv.puppeteerOk = false then ([], none)
  else
    match List.lookup (str "index.html") files with
    | some (.text indexHtml) =>
      if renv.launchOk = false then ([], none)
      else
        let h1 := inlineResources indexHtml files
        let cov := truthyB options.includeCover
        let h2 := if cov
          then insertCover h1
            (generateCoverHTML denv metadata (options.coverConfig.getD defaultCoverConfig))
          else h1
        let toc := truthyB options.includeTableOfContents
        let h3 := if toc
          then insertTOC h2 (generateTOCHTML h2 (options.tocConfig.getD defaultTOCConfig))
          else h2
        let _h4 := addPrintStyles h3 options
        let _dims := pdfPageDims options
        let tr1 := (if cov then [evGeneratingCover] else [])
          ++ (if toc then [evGeneratingToc] else []) ++ [evRendering60]
        if renv.loadOk = false then (tr1, none)
        else if renv.printOk = false then (tr1 ++ [evGeneratingPdf80], none)
        else (tr1 ++ [evGeneratingPdf80],
          some (renv.pdfBytes, estimatePageCount renv.pageHeight))
    | _ => ([], none)

/-- `_createErrorResult` (plugin.ts:404). -/
def errorResult (taskId : String) (code : ConvErrorCode) (elapsed : Nat) :
    PDFConversionResult :=
  { success := false, taskId := taskId, error := some ⟨code⟩, duration := elapsed }

/-- `convert` (plugin.ts:205): the returned result and the sequence of
progress events delivered through `reportProgress` (delivered to the
caller's `onProgress` exactly in this order when a callback is present). -/
def convert (env : ConvEnv) (options : Option PDFConversionOptions) :
    PDFConversionResult × List PEvent :=
  let merged := mergeOptions options
  let v := validateOptions merged
  if v.valid = false then
    (errorResult env.uuid (.pdf .invalidPageSize) env.elapsed, [])
  else
    match env.html with
    | .failure err =>
      ({ success := false, taskId := env.uuid,
         error := some ⟨(err.map ConvErrorCode.htmlForwarded).getD
           (ConvErrorCode.htmlForwarded (str "CONV-HTML-002"))⟩,
         duration := env.elapsed },
       [evConvertingHtml, evHtmlFailed])
    | .ok files =>
      let metadata := extractMetadata env files
      let gen := generatePDF env.render env.date files merged metadata
      let pre := evConvertingHtml :: evGeneratingPdf30 :: gen.1
      match gen.2 with
      | none =>
        (errorResult env.uuid (.pdf .pdfGenerationFailed) env.elapsed,
         pre ++ [evCatchFailed])
      | some (pdfData, pageCount) =>
        if truthyS merged.outputPath then
          if env.writeOk = false then
            (errorResult env.uuid (.pdf .pdfGenerationFailed) env.elapsed,
             pre ++ [evCatchFailed])
          else
            ({ success := true, taskId := env.uuid, outputPath := merged.outputPath,
               data := none, pageCount := some pageCount, duration := env.elapsed },
             pre ++ [evCompletedSaved])
        else
          ({ success := true, taskId := env.uuid, outputPath := merged.outputPath,
             data := some pdfData, pageCount := some pageCount, duration := env.elapsed },
           pre ++ [evCompleted])

-- ===========================================================================
-- Concrete environments for the claim instances
-- ===========================================================================

/-- Minimal asset map of a successful HTML conversion. -/
def demoFiles : AssetMap :=
  [(str "index.html",
    AssetContent.text (str "<html><head></head><body></body></html>"))]

/-- A concrete date environment. -/
def demoDateEnv : DateEnv := ⟨fun _ => str "2024/1/1", str "2024/1/1"⟩

/-- An all-succeeding environment. -/
def demoEnv : ConvEnv :=
  { uuid := "task-1", nowISO := str "2024-01-01T00:00:00.000Z",
    date := demoDateEnv, html := HtmlOutcome.ok demoFiles,
    render := { puppeteerOk := true, launchOk := true, loadOk := true,
                printOk := true, pdfBytes := [(37 : Byte), (80 : Byte)],
                pageHeight := 1500 },
    writeOk := true, elapsed := 5 }

/-- The same environment with a document-load failure (`setContent`
rejects). -/
def demoEnvLoadFail : ConvEnv :=
  { demoEnv with render := { demoEnv.render with loadOk := false } }

/-- Concrete options: skip cover and TOC. -/
def optsNoCover : PDFConversionOptions :=
  { includeCover := some false }

-- ===========================================================================
-- Claim C4 — validation error codes
-- ===========================================================================

/-- C4 (counterexample): a conversion whose only invalid option is the
malformed margin `"wide"` fails with the `INVALID_PAGE_SIZE` code — all
validation failures share that single code (plugin.ts:235), not a
distinct invalid-margin code. -/
theorem c4_counterexample :
    validateOptions (mergeOptions (some { margin := some { top := some (str "wide") } }))
      = { valid := false,
          errors := some [ValidationIssue.invalidMargin MarginSide.top],
          warnings := none } ∧
      (convert demoEnv (some { margin := some { top := some (str "wide") } })).1.error
        = some ⟨ConvErrorCode.pdf PDFErrorCode.invalidPageSize⟩ ∧
      PDFErrorCode.invalidPageSize ≠ PDFErrorCode.invalidMargin := by
  refine ⟨by decide, by decide, by decide⟩

/-- C4 (amended): every validation failure — whichever rule fired — is
reported as a failed result carrying the single code
`INVALID_PAGE_SIZE`. -/
theorem c4_amended (env : ConvEnv) (options : Option PDFConversionOptions)
    (h : (validateOptions (mergeOptions options)).valid = false) :
    (convert env options).1.success = false ∧
      (convert env options).1.error
        = some ⟨ConvErrorCode.pdf PDFErrorCode.invalidPageSize⟩ := by
  simp only [convert]
  rw [if_pos h]
  exact ⟨rfl, rfl⟩

/-- C4 witness: the amended theorem at the malformed-margin options. -/
theorem c4_amended_witness :
    (convert demoEnv (some { margin := some { top := some (str "wide") } })).1.success = false ∧
      (convert demoEnv (some { margin := some { top := some (str "wide") } })).1.error
        = some ⟨ConvErrorCode.pdf PDFErrorCode.invalidPageSize⟩ :=
  c4_amended demoEnv (some { margin := some { top := some (str "wide") } }) (by decide)

-- ===========================================================================
-- Claim C1 — the final progress event
-- ===========================================================================

/-- C1 (counterexample): an option-validation failure (here `scale = 3`)
returns a failed result without emitting any progress event at all — in
particular no final `failed` event. -/
theorem c1_counterexample :
    (convert demoEnv (some { scale := some 3 })).1.success = false ∧
      (convert demoEnv (some { scale := some 3 })).2 = [] := by
  refine ⟨by decide, by decide⟩

/-- C1 (amended): when the result has `success = true` the last delivered
progress event is `(completed, 100)`; when it has `success = false` and
validation passed, the last delivered event is a `failed` event; when
validation failed, no progress event is delivered at all. -/
theorem c1_amended (env : ConvEnv) (options : Option PDFConversionOptions) :
    ((convert env options).1.success = true →
      ∃ e, (convert env options).2.getLast? = some e
        ∧ e.status = PDFConversionStatus.completed ∧ e.percent = 100) ∧
    ((convert env options).1.success = false →
      ((validateOptions (mergeOptions options)).valid = true →
        ∃ e, (convert env options).2.getLast? = some e
          ∧ e.status = PDFConversionStatus.failed) ∧
      ((validateOptions (mergeOptions options)).valid = false →
        (convert env options).2 = [])) := by
  simp only [convert]
  split
  next hval =>
    refine ⟨fun hs => absurd hs (by simp [errorResult]), fun _ => ⟨?_, fun _ => rfl⟩⟩
    intro hvalid
    rw [hvalid] at hval
    cases hval
  next hval =>
    split
    next err =>
      refine ⟨fun hs => by simp at hs, fun _ => ⟨fun _ => ⟨evHtmlFailed, rfl, rfl⟩, ?_⟩⟩
      intro hf
      rw [hf] at hval
      exact absurd rfl hval
    next files =>
      split
      next hg =>
        refine ⟨fun hs => by simp [errorResult] at hs, fun _ => ⟨?_, ?_⟩⟩
        · intro _
          exact ⟨evCatchFailed, List.getLast?_concat _, rfl⟩
        · intro hf
          rw [hf] at hval
          exact absurd rfl hval
      next pdfData pageCount hg =>
        split
        next ht =>
          split
          next hw =>
            refine ⟨fun hs => by simp [errorResult] at hs, fun _ => ⟨?_, ?_⟩⟩
            · intro _
              exact ⟨evCatchFailed, List.getLast?_concat _, rfl⟩
            · intro hf
              rw [hf] at hval
              exact absurd rfl hval
          next hw =>
            refine ⟨fun _ => ⟨evCompletedSaved, List.getLast?_concat _, rfl, rfl⟩, ?_⟩
            intro hs
            simp at hs
        next ht =>
          refine ⟨fun _ => ⟨evCompleted, List.getLast?_concat _, rfl, rfl⟩, ?_⟩
          intro hs
          simp at hs

/-- C1 witness: on a successful conversion the last event is
`(completed, 100)`. -/
theorem c1_amended_witness :
    ∃ e, (convert demoEnv (some optsNoCover)).2.getLast? = some e
      ∧ e.status = PDFConversionStatus.completed ∧ e.percent = 100 :=
  (c1_amended demoEnv (some optsNoCover)).1 (by decide)

-- ===========================================================================
-- Claim C3 — monotonicity of progress percents
-- ===========================================================================

theorem generatePDF_percent_sublist (renv : RenderEnv) (denv : DateEnv)
    (files : AssetMap) (options : PDFConversionOptions) (metadata : CardMetadata) :
    List.Sublist ((generatePDF renv denv files options metadata).1.map PEvent.percent)
      [40, 50, 60, 80] := by
  simp only [generatePDF]
  split
  · exact List.nil_sublist _
  · split
    next indexHtml =>
      split
      · exact List.nil_sublist _
      · by_cases hcov : truthyB options.includeCover
          <;> by_cases htoc : truthyB options.includeTableOfContents
          <;> split
          <;> (try split)
          <;> simp [hcov, htoc, evGeneratingCover, evGeneratingToc, evRendering60,
                evGeneratingPdf80]
    next => exact List.nil_sublist _

/-- Any subsequence of the full checkpoint ladder is non-decreasing. -/
theorem sorted_of_sublist_ladder (l : List Nat)
    (h : List.Sublist l [0, 30, 40, 50, 60, 80, 100]) :
    List.Sorted (· ≤ ·) l :=
  ((by decide : List.Sorted (· ≤ ·) ([0, 30, 40, 50, 60, 80, 100] : List Nat))).sublist h

/-- C3 (counterexample): when the document load fails after rendering has
progressed, the delivered percents are `0, 30, 60` followed by the final
`failed` event's `0` — not a monotonically non-decreasing sequence. -/
theorem c3_counterexample :
    (convert demoEnvLoadFail (some optsNoCover)).2.map PEvent.percent = [0, 30, 60, 0] ∧
      ¬ List.Sorted (· ≤ ·)
        ((convert demoEnvLoadFail (some optsNoCover)).2.map PEvent.percent) := by
  refine ⟨by decide, ?_⟩
  intro h
  rw [(by decide :
    (convert demoEnvLoadFail (some optsNoCover)).2.map PEvent.percent = [0, 30, 60, 0])] at h
  exact absurd h (by decide)

/-- C3 (amended): on every successful execution path the delivered
percents are monotonically non-decreasing; on a failing path all events
before the final one are non-decreasing, but the final `failed` event
carries percent `0`, which may be smaller than earlier percents. -/
theorem c3_amended (env : ConvEnv) (options : Option PDFConversionOptions) :
    ((convert env options).1.success = true →
      List.Sorted (· ≤ ·) ((convert env options).2.map PEvent.percent)) ∧
    ((convert env options).1.success = false →
      List.Sorted (· ≤ ·) ((convert env options).2.dropLast.map PEvent.percent) ∧
      ∀ e, (convert env options).2.getLast? = some e → e.percent = 0) := by
  simp only [convert]
  split
  next hval =>
    exact ⟨fun hs => absurd hs (by simp [errorResult]),
      fun _ => ⟨by simp, fun e he => by simp at he⟩⟩
  next hval =>
    split
    next err =>
      refine ⟨fun hs => by simp at hs, fun _ => ⟨?_, ?_⟩⟩
      · simp [evConvertingHtml]
      · intro e he
        rw [(rfl : ([evConvertingHtml, evHtmlFailed] : List PEvent).getLast?
          = some evHtmlFailed)] at he
        cases he
        rfl
    next fl hfl =>
      have hg := generatePDF_percent_sublist env.render env.date fl
        (mergeOptions options) (extractMetadata env fl)
      have hpre : List.Sorted (· ≤ ·)
          ((evConvertingHtml :: evGeneratingPdf30 ::
            (generatePDF env.render env.date fl (mergeOptions options)
              (extractMetadata env fl)).1).map PEvent.percent) := by
        simp only [List.map_cons]
        apply sorted_of_sublist_ladder
        exact List.Sublist.cons₂ _ (List.Sublist.cons₂ _
          (hg.trans (by decide : List.Sublist [40, 50, 60, 80] [40, 50, 60, 80, 100])))
      have hfull : ∀ (last : PEvent), last.percent = 100 →
          List.Sorted (· ≤ ·)
            (((evConvertingHtml :: evGeneratingPdf30 ::
              (generatePDF env.render env.date fl (mergeOptions options)
                (extractMetadata env fl)).1) ++ [last]).map PEvent.percent) := by
        intro last hl
        simp only [List.map_append, List.map_cons, List.map_nil, hl]
        apply sorted_of_sublist_ladder
        exact List.Sublist.cons₂ _ (List.Sublist.cons₂ _
          (hg.append (List.Sublist.refl [100])))
      split
      next hnone =>
        refine ⟨fun hs => by simp [errorResult] at hs, fun _ => ⟨?_, ?_⟩⟩
        · rw [List.dropLast_concat]
          exact hpre
        · intro e he
          rw [List.getLast?_concat] at he
          cases he
          rfl
      next pdfData pageCount hsome =>
        split
        next ht =>
          split
          next hw =>
            refine ⟨fun hs => by simp [errorResult] at hs, fun _ => ⟨?_, ?_⟩⟩
            · rw [List.dropLast_concat]
              exact hpre
            · intro e he
              rw [List.getLast?_concat] at he
              cases he
              rfl
          next hw =>
            exact ⟨fun _ => hfull evCompletedSaved rfl, fun hs => by simp at hs⟩
        next ht =>
          exact ⟨fun _ => hfull evCompleted rfl, fun hs => by simp at hs⟩

/-- C3 witness: the percents of a successful conversion are
non-decreasing. -/
theorem c3_amended_witness :
    List.Sorted (· ≤ ·) ((convert demoEnv (some optsNoCover)).2.map PEvent.percent) :=
  (c3_amended demoEnv (some optsNoCover)).1 (by decide)

-- ===========================================================================
-- Claim C8 — output path vs raw bytes on success
-- ===========================================================================

/-- Options requesting the empty-string output path. -/
def optsEmptyPath : PDFConversionOptions :=
  { includeCover := some false, outputPath := some [] }

/-- C8 (counterexample): with a requested output path of `""` (falsy in
JS but a present string field), the successful result carries both the
path and the raw bytes — "exactly one is populated" fails. -/
theorem c8_counterexample :
    (convert demoEnv (some optsEmptyPath)).1.success = true ∧
      (convert demoEnv (some optsEmptyPath)).1.outputPath = some [] ∧
      (convert demoEnv (some optsEmptyPath)).1.data.isSome = true := by
  refine ⟨by decide, by decide, by decide⟩

/-- C8 (amended): on success, exactly one of `outputPath` and `data` is
populated whenever the requested output path is absent or nonempty; a
requested empty-string path (falsy in JS) yields a result carrying both
the empty path and the raw bytes. The requested path is
`(mergeOptions options).outputPath`, which `mergeOptions` copies verbatim
from the caller's options. -/
theorem c8_amended (env : ConvEnv) (options : Option PDFConversionOptions)
    (hs : (convert env options).1.success = true) :
    ((mergeOptions options).outputPath = none →
      (convert env options).1.outputPath = none ∧
        (convert env options).1.data.isSome = true) ∧
    (∀ p, (mergeOptions options).outputPath = some p → p ≠ [] →
      (convert env options).1.outputPath = some p ∧
        (convert env options).1.data = none) ∧
    ((mergeOptions options).outputPath = some [] →
      (convert env options).1.outputPath = some [] ∧
        (convert env options).1.data.isSome = true) := by
  revert hs
  simp only [convert]
  split
  next hval => intro hs; exact absurd hs (by simp [errorResult])
  next hval =>
    split
    next err => intro hs; exact absurd hs (by simp)
    next fl hfl =>
      split
      next hnone => intro hs; exact absurd hs (by simp [errorResult])
      next pdfData pageCount hsome =>
        split
        next ht =>
          split
          next hw => intro hs; exact absurd hs (by simp [errorResult])
          next hw =>
            intro _
            refine ⟨?_, ?_, ?_⟩
            · intro hp
              rw [hp] at ht
              exact absurd ht (by simp [truthyS])
            · intro p hp _
              simp [hp]
            · intro hp
              rw [hp] at ht
              exact absurd ht (by simp [truthyS])
        next ht =>
          intro _
          refine ⟨?_, ?_, ?_⟩
          · intro hp
            simp [hp]
          · intro p hp hpne
            rw [hp] at ht
            exact absurd (by simp [truthyS, hpne] : truthyS (some p) = true) ht
          · intro hp
            simp [hp]

/-- Options requesting a nonempty output path. -/
def optsWithPath : PDFConversionOptions :=
  { includeCover := some false, outputPath := some (str "/tmp/out.pdf") }

/-- C8 witness: the amended theorem at a nonempty requested path and at no
requested path. -/
theorem c8_amended_witness :
    ((convert demoEnv (some optsWithPath)).1.outputPath = some (str "/tmp/out.pdf") ∧
      (convert demoEnv (some optsWithPath)).1.data = none) ∧
    ((convert demoEnv (some optsNoCover)).1.outputPath = none ∧
      (convert demoEnv (some optsNoCover)).1.data.isSome = true) :=
  ⟨(c8_amended demoEnv (some optsWithPath) (by decide)).2.1
      (str "/tmp/out.pdf") rfl (by decide),
    (c8_amended demoEnv (some optsNoCover) (by decide)).1 rfl⟩
